import Mathlib

/-!
# DaroEngine2 — verification of the natural-language specification

A shallow embedding of the core of the DaroEngine2 2D broadcast-graphics
compositor (`src/Engine/`), with theorems settling the frozen claims about
its behaviour.  Machine floating-point values (C `float` / `double`) are
modelled as exact rationals `ℚ`; machine integers as `ℤ`/`ℕ` (no value in
any claim approaches an overflow boundary); raw memory as byte-indexed
functions `ℕ → ℕ`.

Components embedded, in order:
* the `DaroLayer` record and the layer table (`Daro_SetLayerCount`,
  `Daro_UpdateLayer`, `Daro_GetLayer` from `DaroEngine.cpp`);
* dropped-frame accounting (`Daro_EndFrame`);
* the shared frame-buffer publisher (`DaroFrameBuffer::Write`);
* the circle draw routine (`DaroRenderer::RenderCircle`);
* the per-frame mask index and render dispatch (`Daro_Render` +
  `DaroRenderer::RenderWithMasks` / `RenderLayer`);
* the video decode pipeline (`VideoPlayer::UpdateFrame`,
  `SeekToFrameInternal`, `LoadVideo` with its two backends) and the
  `VideoManager` registry.
-/

namespace Daro

/-- Layer type constants from `SharedTypes.h` (`DARO_TYPE_*`). -/
def TYPE_RECTANGLE : ℤ := 0
def TYPE_CIRCLE : ℤ := 1
def TYPE_TEXT : ℤ := 2
def TYPE_IMAGE : ℤ := 3
def TYPE_VIDEO : ℤ := 4
def TYPE_MASK : ℤ := 5
def TYPE_GROUP : ℤ := 6

/-- `DARO_MAX_LAYERS` from `SharedTypes.h`. -/
def MAX_LAYERS : ℤ := 64

/-- The `DaroLayer` record of `SharedTypes.h`, field for field.  C `float`
fields are modelled as `ℚ`; the two fixed-size `wchar_t`/`char` strings are
modelled as lists of code units; `maskedLayerIds` (a fixed `int[64]` array)
is a list of 64 entries (the embedding never reads past index 63, matching
the `min(count, DARO_MAX_LAYERS)` clamp in `Daro_Render`). -/
structure DaroLayer where
  id : ℤ
  active : ℤ
  layerType : ℤ
  posX : ℚ
  posY : ℚ
  sizeX : ℚ
  sizeY : ℚ
  rotX : ℚ
  rotY : ℚ
  rotZ : ℚ
  anchorX : ℚ
  anchorY : ℚ
  opacity : ℚ
  colorR : ℚ
  colorG : ℚ
  colorB : ℚ
  colorA : ℚ
  sourceType : ℤ
  textureId : ℤ
  spoutReceiverId : ℤ
  texX : ℚ
  texY : ℚ
  texW : ℚ
  texH : ℚ
  texRot : ℚ
  textureLocked : ℤ
  textContent : List ℕ
  fontFamily : List ℕ
  fontSize : ℚ
  fontBold : ℤ
  fontItalic : ℤ
  textAlignment : ℤ
  lineHeight : ℚ
  letterSpacing : ℚ
  textAntialiasMode : ℤ
  texturePath : List ℕ
  maskMode : ℤ
  maskedLayerCount : ℤ
  maskedLayerIds : List ℤ

/-- The all-zero layer record (`memset(g_Layers, 0, ...)`). -/
def zeroLayer : DaroLayer where
  id := 0
  active := 0
  layerType := 0
  posX := 0
  posY := 0
  sizeX := 0
  sizeY := 0
  rotX := 0
  rotY := 0
  rotZ := 0
  anchorX := 0
  anchorY := 0
  opacity := 0
  colorR := 0
  colorG := 0
  colorB := 0
  colorA := 0
  sourceType := 0
  textureId := 0
  spoutReceiverId := 0
  texX := 0
  texY := 0
  texW := 0
  texH := 0
  texRot := 0
  textureLocked := 0
  textContent := []
  fontFamily := []
  fontSize := 0
  fontBold := 0
  fontItalic := 0
  textAlignment := 0
  lineHeight := 0
  letterSpacing := 0
  textAntialiasMode := 0
  texturePath := []
  maskMode := 0
  maskedLayerCount := 0
  maskedLayerIds := List.replicate 64 0

/-!
## Layer table (`DaroEngine.cpp`)

Global state `g_Layers : DaroLayer[64]` and `g_LayerCount : int`.
-/

/-- The engine's layer table: the fixed 64-entry array `g_Layers` together
with `g_LayerCount`. -/
structure LayerTable where
  layers : ℤ → DaroLayer
  layerCount : ℤ

/-- `Daro_SetLayerCount`: clamp to `[0, DARO_MAX_LAYERS]`, leave the array
untouched. -/
def setLayerCount (t : LayerTable) (count : ℤ) : LayerTable :=
  let c := if count < 0 then 0 else count
  { t with layerCount := min c MAX_LAYERS }

/-- `Daro_UpdateLayer`: bounds-check the index, then `memcpy` the record
into the slot.  A null `layer` pointer is modelled by `none` and is a
no-op, exactly like an out-of-range index. -/
def updateLayer (t : LayerTable) (index : ℤ) (layer : Option DaroLayer) : LayerTable :=
  match layer with
  | none => t
  | some rec₀ =>
    if index < 0 ∨ MAX_LAYERS ≤ index then t
    else { t with layers := fun j => if j = index then rec₀ else t.layers j }

/-- `Daro_GetLayer`: bounds-check the index, then `memcpy` the slot out.
`none` models the call leaving the caller's buffer untouched (bad index or
null pointer). -/
def getLayer (t : LayerTable) (index : ℤ) : Option DaroLayer :=
  if index < 0 ∨ MAX_LAYERS ≤ index then none
  else some (t.layers index)

/-- Apply a sequence of `Daro_UpdateLayer` calls (index, record) in order. -/
def applyUpdates (t : LayerTable) (ops : List (ℤ × DaroLayer)) : LayerTable :=
  ops.foldl (fun s p => updateLayer s p.1 (some p.2)) t

/-- The payload of the most recent update call at `index` in `ops`, if any. -/
def lastUpdateAt (ops : List (ℤ × DaroLayer)) (index : ℤ) : Option DaroLayer :=
  (ops.filter (fun p => p.1 = index)).getLast?.map Prod.snd

/-!
## Dropped-frame accounting (`Daro_EndFrame`)
-/

/-- The amount `Daro_EndFrame` adds to `g_DroppedFrames`, as a function of
the measured elapsed seconds and the configured target fps.  Mirrors:
`targetFrameTime = 1/targetFps; if (elapsed > targetFrameTime * 1.5)
{ droppedCount = (int)(elapsed / targetFrameTime) - 1; if (droppedCount > 0)
add droppedCount; }`.  The C truncating cast `(int)` coincides with `⌊·⌋`
here because the operand is nonnegative whenever the branch is taken. -/
def droppedFramesAdded (elapsed targetFps : ℚ) : ℤ :=
  let targetFrameTime := 1 / targetFps
  if elapsed > targetFrameTime * (3 / 2) then
    let droppedCount := ⌊elapsed / targetFrameTime⌋ - 1
    if droppedCount > 0 then droppedCount else 0
  else 0

/-!
## Shared frame buffer (`FrameBuffer.cpp`)

The shared region holds a header (width, height, stride, frameNumber,
locked) followed by the pixel bytes; we model the pixel plane as a
byte-indexed function and keep the header fields inline.  `m_IsLocked`
is the writer-side lock flag set by `Lock` and cleared by `Unlock`.
-/

/-- State of `DaroFrameBuffer` after `Initialize` (header + pixel plane). -/
structure FrameBufferState where
  width : ℕ
  height : ℕ
  stride : ℕ
  pixels : ℕ → ℕ
  frameNumber : ℤ
  isLocked : Bool

/-- `DaroFrameBuffer::Write`.  The bounded 10 ms `wait_for` on the condition
variable is summarized by `readerUnlocksDuringWait`: `true` when the reader
calls `Unlock` before the timeout expires, `false` when the region stays
locked through the whole wait (then the write is dropped).  Otherwise the
pixel copy follows the source: one bulk `memcpy` of `stride * height` bytes
when `srcStride == m_Stride`, else a per-row copy of
`min srcStride m_Stride` bytes, and finally the frame number is stamped. -/
def fbWrite (s : FrameBufferState) (src : ℕ → ℕ) (srcStride : ℕ)
    (frameNumber : ℤ) (readerUnlocksDuringWait : Bool) : FrameBufferState :=
  if s.isLocked ∧ readerUnlocksDuringWait = false then s
  else
    let pixels :=
      if srcStride = s.stride then
        fun i => if i < s.stride * s.height then src i else s.pixels i
      else
        let copyStride := min srcStride s.stride
        fun i =>
          if i / s.stride < s.height ∧ i % s.stride < copyStride then
            src (i / s.stride * srcStride + i % s.stride)
          else s.pixels i
    { s with pixels := pixels, frameNumber := frameNumber, isLocked := false }

/-!
## Circle rendering (`DaroRenderer::RenderCircle`)
-/

/-- The Direct2D `FillEllipse` draw call issued by `RenderCircle`: an
ellipse (center, two radii), the solid brush color, and the antialias mode
(`perPrimitiveAA = true` is `D2D1_ANTIALIAS_MODE_PER_PRIMITIVE`, the
high-quality mode). -/
structure CircleDraw where
  centerX : ℚ
  centerY : ℚ
  radiusX : ℚ
  radiusY : ℚ
  colorR : ℚ
  colorG : ℚ
  colorB : ℚ
  colorA : ℚ
  perPrimitiveAA : Bool

/-- `DaroRenderer::RenderCircle`: brush color
`(colorR, colorG, colorB, colorA * opacity)`, radius
`min(sizeX, sizeY) * 0.5` used for both ellipse radii, center
`(posX, posY)`, antialias mode always `D2D1_ANTIALIAS_MODE_PER_PRIMITIVE`.
(The brush cache keyed on the color is behaviourally transparent: the brush
always holds exactly this color when `FillEllipse` runs.) -/
def renderCircle (l : DaroLayer) : CircleDraw :=
  let radius := min l.sizeX l.sizeY * (1 / 2)
  { centerX := l.posX
    centerY := l.posY
    radiusX := radius
    radiusY := radius
    colorR := l.colorR
    colorG := l.colorG
    colorB := l.colorB
    colorA := l.colorA * l.opacity
    perPrimitiveAA := true }

/-!
## Per-frame mask index and render dispatch
(`Daro_Render` + `DaroRenderer::RenderWithMasks`)
-/

/-- The first `min(maskedLayerCount, DARO_MAX_LAYERS)` entries of a mask
layer's target array — the entries the index-building loop in `Daro_Render`
actually visits. -/
def safeTargets (l : DaroLayer) : List ℤ :=
  l.maskedLayerIds.take (min l.maskedLayerCount MAX_LAYERS).toNat

/-- Layer `l` contributes an entry for target id `tid` to the mask index:
`l` is a Mask layer with a positive target count and `tid` is one of its
visited, nonnegative target ids (`maskedId >= 0` filter in `Daro_Render`). -/
def listsTarget (l : DaroLayer) (tid : ℤ) : Prop :=
  l.layerType = TYPE_MASK ∧ 0 < l.maskedLayerCount ∧ 0 ≤ tid ∧ tid ∈ safeTargets l

instance (l : DaroLayer) (tid : ℤ) : Decidable (listsTarget l tid) := by
  unfold listsTarget
  infer_instance

/-- Whether the index-building loop of `Daro_Render` pushes layer index `i`
for target id `tid`. -/
def maskPred (layers : List DaroLayer) (tid : ℤ) (i : ℕ) : Bool :=
  match layers[i]? with
  | some l => decide (listsTarget l tid)
  | none => false

/-- The `layerToMasks` multimap of `Daro_Render`, per target id.  The build
loop scans layers in index order and appends each qualifying mask's index,
so the vector stored for `tid` is exactly the increasing list of layer
indices whose layer lists `tid`. -/
def maskListFor (layers : List DaroLayer) (tid : ℤ) : List ℕ :=
  (List.range layers.length).filter (maskPred layers tid)

/-- One draw step recorded by `RenderWithMasks`:
`maskPreview i` — the unconditional `RenderRectangle(layer)` call for an
active Mask layer ("Render mask layers visually when active (for
preview)"); `boundingBox i` — the debug `RenderBoundingBox` overlay;
`masked i m` — layer `i` dispatched through the masked path with mask layer
`m` (stencil protocol or D2D geometry clip depending on the target type);
`normal i` — the unmasked `RenderLayer` call. -/
inductive RenderAction where
  | maskPreview (i : ℕ)
  | boundingBox (i : ℕ)
  | masked (i : ℕ) (maskIdx : ℕ)
  | normal (i : ℕ)
  deriving DecidableEq

/-- The layer index an action belongs to. -/
def RenderAction.index : RenderAction → ℕ
  | .maskPreview i => i
  | .boundingBox i => i
  | .masked i _ => i
  | .normal i => i

/-- The body of the `RenderWithMasks` loop for layer `i`: skip inactive
layers; render active Mask layers as a preview rectangle (plus bounding box
when show-bounds is on); skip Group layers; otherwise consult
`layerToMasks[layer->id]` — a nonempty entry routes through the masked path
with its first element (after the `maskIndex < layerCount` bounds check,
whose failure `continue`s past the bounding box too), an absent or empty
entry renders normally. -/
def dispatchLayer (layers : List DaroLayer) (showBounds : Bool) (i : ℕ) :
    List RenderAction :=
  match layers[i]? with
  | none => []
  | some l =>
    if l.active = 0 then []
    else if l.layerType = TYPE_MASK then
      RenderAction.maskPreview i ::
        (if showBounds then [RenderAction.boundingBox i] else [])
    else if l.layerType = TYPE_GROUP then []
    else
      match (maskListFor layers l.id).head? with
      | some m =>
        if layers.length ≤ m then []
        else
          RenderAction.masked i m ::
            (if showBounds then [RenderAction.boundingBox i] else [])
      | none =>
        RenderAction.normal i ::
          (if showBounds then [RenderAction.boundingBox i] else [])

/-- The full per-frame dispatch sequence of `RenderWithMasks` over the
snapshot, in original layer order. -/
def renderDispatch (layers : List DaroLayer) (showBounds : Bool) :
    List RenderAction :=
  (List.range layers.length).flatMap (dispatchLayer layers showBounds)

/-- A concrete active Circle layer: white at opacity one half. -/
def circleCounterLayer : DaroLayer :=
  { zeroLayer with
    id := 2
    active := 1
    layerType := TYPE_CIRCLE
    sizeX := 100
    sizeY := 50
    colorR := 1
    colorG := 1
    colorB := 1
    colorA := 1
    opacity := 1 / 2 }

/-- A concrete active Mask layer listing target id 5. -/
def previewMaskLayer : DaroLayer :=
  { zeroLayer with
    id := 1
    active := 1
    layerType := TYPE_MASK
    maskMode := 0
    maskedLayerCount := 1
    maskedLayerIds := 5 :: List.replicate 63 0 }

/-- A concrete active Rectangle layer with id 5 (a mask target). -/
def rectTargetLayer : DaroLayer :=
  { zeroLayer with
    id := 5
    active := 1
    layerType := TYPE_RECTANGLE
    sizeX := 100
    sizeY := 100
    opacity := 1
    colorA := 1 }

/-!
## Video decode pipeline (`VideoPlayer.cpp`, `FFmpegDecoder.cpp`)

Decoded pixel uploads (`CopyFrameToTexture` / `CopyBufferToTexture`) only
touch the GPU texture and are not part of any claim, so they are not
modelled; every other state transition of `VideoPlayer` is.  C `double`
arithmetic is modelled as exact `ℚ`.
-/

/-- State of the FFmpeg fallback decoder (`FFmpegDecoder`) after `Open`.
The container is abstracted as a stream of `total` decodable video frames;
`pos` is the demuxer position (index of the next frame `av_read_frame`
will deliver).  `DecodeNextFrame` succeeds while `pos < total` and flags
`eos` on `AVERROR_EOF`. -/
structure FFDecoder where
  opened : Bool
  width : ℤ
  height : ℤ
  duration : ℚ
  frameRate : ℚ
  totalFrames : ℤ
  hasAlpha : Bool
  pos : ℕ
  total : ℕ
  eos : Bool

/-- `FFmpegDecoder::DecodeNextFrame`: fails when not opened or already at
end of stream; decodes and converts one frame while packets remain; sets
the end-of-stream flag when `av_read_frame` returns `AVERROR_EOF`. -/
def ffDecodeNext (d : FFDecoder) : FFDecoder × Bool :=
  if d.opened = false ∨ d.eos = true then (d, false)
  else if d.pos < d.total then ({ d with pos := d.pos + 1 }, true)
  else ({ d with eos := true }, false)

/-- `FFmpegDecoder::SeekToFrame` (via `SeekToTime`): fails when not opened;
otherwise `av_seek_frame` repositions the demuxer and clears the
end-of-stream flag.  (`AVSEEK_FLAG_BACKWARD` lands on the keyframe at or
before the target; modelled as exact positioning at the requested frame.) -/
def ffSeekToFrame (d : FFDecoder) (frame : ℤ) : FFDecoder × Bool :=
  if d.opened = false then (d, false)
  else ({ d with pos := frame.toNat, eos := false }, true)

/-- The Media Foundation source reader (`m_Reader`), abstracted as a
position in a stream of `total` video samples; `ReadSample` reports
`MF_SOURCE_READERF_ENDOFSTREAM` once `pos` reaches `total`, and sample
`p` carries presentation timestamp `p * frameDuration` seconds. -/
structure MFReader where
  pos : ℕ
  total : ℕ

/-- The per-video state of `VideoPlayer` (all fields of `VideoPlayer.h`
that claims can observe). -/
structure VideoState where
  loaded : Bool
  playing : Bool
  loop : Bool
  endOfStream : Bool
  usingFFmpeg : Bool
  needsAlphaFix : Bool
  videoAlpha : Bool
  width : ℤ
  height : ℤ
  duration : ℚ
  frameRate : ℚ
  frameDuration : ℚ
  totalFrames : ℤ
  currentFrame : ℤ
  currentTime : ℚ
  accumulatedTime : ℚ
  reader : Option MFReader
  ffDecoder : Option FFDecoder

/-- `VideoPlayer`'s state right after construction. -/
def initialVideoState : VideoState where
  loaded := false
  playing := false
  loop := false
  endOfStream := false
  usingFFmpeg := false
  needsAlphaFix := false
  videoAlpha := false
  width := 0
  height := 0
  duration := 0
  frameRate := 0
  frameDuration := 0
  totalFrames := 0
  currentFrame := 0
  currentTime := 0
  accumulatedTime := 0
  reader := none
  ffDecoder := none

/-- `VideoPlayer::DecodeNextFrame` (Media Foundation path): `ReadSample`
either flags end-of-stream, or delivers the sample at the reader position,
whose timestamp sets `m_CurrentTime` and, through the truncating cast
`(int)(m_CurrentTime * m_FrameRate)` (`⌊·⌋` on these nonnegative values),
`m_CurrentFrame`. -/
def mfDecodeNext (s : VideoState) : VideoState × Bool :=
  match s.reader with
  | none => (s, false)
  | some r =>
    if r.pos < r.total then
      let ts : ℚ := (r.pos : ℚ) * s.frameDuration
      ({ s with
          currentTime := ts
          currentFrame := ⌊ts * s.frameRate⌋
          reader := some { r with pos := r.pos + 1 } }, true)
    else
      ({ s with endOfStream := true }, false)

/-- `VideoPlayer::SeekToFrameInternal`: clamp the frame to
`[0, totalFrames-1]`, convert to seconds, then reposition the active
backend and decode one frame at the new position.  The FFmpeg branch
ignores the seek's return value and decodes unconditionally; the MF branch
(`SetCurrentPosition`, modelled as always succeeding) updates
frame/time/end-of-stream and decodes. -/
def seekToFrameInternal (s : VideoState) (frame : ℤ) : VideoState :=
  if s.loaded = false then s
  else
    let f := max 0 (min frame (if 0 < s.totalFrames then s.totalFrames - 1 else 0))
    let targetTime : ℚ := if 0 < s.frameRate then (f : ℚ) / s.frameRate else 0
    if s.usingFFmpeg then
      match s.ffDecoder with
      | none =>
        { s with currentFrame := f, currentTime := targetTime, endOfStream := false }
      | some d =>
        let d1 := (ffSeekToFrame d f).1
        let d2 := (ffDecodeNext d1).1
        { s with
            ffDecoder := some d2
            currentFrame := f
            currentTime := targetTime
            endOfStream := false }
    else
      match s.reader with
      | none => s
      | some r =>
        let s1 := { s with
            reader := some { r with pos := ⌊targetTime * s.frameRate⌋.toNat }
            currentFrame := f
            currentTime := targetTime
            endOfStream := false }
        (mfDecodeNext s1).1

/-- The FFmpeg decode loop of `VideoPlayer::UpdateFrame`: while
`accumulated ≥ frameDuration` and not at end-of-stream, subtract one
`frameDuration` and decode; a successful decode advances the frame counter
and recomputes the time; on the decoder's end-of-stream flag, loop back to
frame 0 and keep playing (loop mode) or stop on the last frame, then break;
a failed decode without end-of-stream just continues the loop.  `fuel`
bounds the iteration count: each pass subtracts `frameDuration > 0` from
the accumulator, so `⌊accumulated/frameDuration⌋ + 1` passes always
suffice. -/
def ffUpdateLoop : ℕ → VideoState → Bool → VideoState × Bool
  | 0, s, dec => (s, dec)
  | fuel + 1, s, dec =>
    if s.frameDuration ≤ s.accumulatedTime ∧ s.endOfStream = false then
      let s1 := { s with accumulatedTime := s.accumulatedTime - s.frameDuration }
      match s1.ffDecoder with
      | none => ffUpdateLoop fuel s1 dec
      | some d =>
        let r := ffDecodeNext d
        let s2 := { s1 with ffDecoder := some r.1 }
        if r.2 then
          ffUpdateLoop fuel
            { s2 with
                currentFrame := s2.currentFrame + 1
                currentTime :=
                  if 0 < s2.frameRate then (s2.currentFrame + 1 : ℚ) / s2.frameRate
                  else 0 }
            true
        else if r.1.eos then
          let s3 := { s2 with endOfStream := true }
          if s3.loop then
            let s4 := seekToFrameInternal s3 0
            ({ s4 with playing := true, endOfStream := false }, dec)
          else
            ({ s3 with playing := false }, dec)
        else
          ffUpdateLoop fuel s2 dec
    else (s, dec)

/-- The Media Foundation decode loop of `VideoPlayer::UpdateFrame`: same
pacing as the FFmpeg loop; `decoded` is overwritten by each
`DecodeNextFrame` result; end-of-stream triggers the identical loop/stop
handling and breaks. -/
def mfUpdateLoop : ℕ → VideoState → Bool → VideoState × Bool
  | 0, s, dec => (s, dec)
  | fuel + 1, s, dec =>
    if s.frameDuration ≤ s.accumulatedTime ∧ s.endOfStream = false then
      let s1 := { s with accumulatedTime := s.accumulatedTime - s.frameDuration }
      let r := mfDecodeNext s1
      if r.1.endOfStream then
        if r.1.loop then
          let s3 := seekToFrameInternal r.1 0
          ({ s3 with playing := true, endOfStream := false }, r.2)
        else
          ({ r.1 with playing := false }, r.2)
      else
        mfUpdateLoop fuel r.1 r.2
    else (s, dec)

/-- `VideoPlayer::UpdateFrame` with the measured wall-clock elapsed seconds
as a parameter: bail out unless loaded and playing, accumulate the elapsed
time, return early when less than one frame is due, else run the decode
loop of the active backend (the FFmpeg loop only when the FFmpeg decoder
object exists, exactly like `m_UsingFFmpeg && m_FFmpegDecoder`). -/
def updateFrame (s : VideoState) (elapsed : ℚ) : VideoState × Bool :=
  if ¬(s.loaded = true ∧ s.playing = true) then (s, false)
  else
    let s1 := { s with accumulatedTime := s.accumulatedTime + elapsed }
    if s1.accumulatedTime < s1.frameDuration then (s1, false)
    else
      let fuel := ⌊s1.accumulatedTime / s1.frameDuration⌋.toNat + 1
      if s1.usingFFmpeg = true ∧ s1.ffDecoder.isSome then ffUpdateLoop fuel s1 false
      else mfUpdateLoop fuel s1 false

/-- `VideoPlayer::UnloadVideoInternal`: reset playback and stream state
(`m_FrameRate`, `m_FrameDuration`, `m_AccumulatedTime`, `m_Loop` and
`m_VideoAlpha` are deliberately NOT reset by the C++ code). -/
def unloadVideoInternal (s : VideoState) : VideoState :=
  { s with
      playing := false
      loaded := false
      endOfStream := false
      needsAlphaFix := false
      usingFFmpeg := false
      currentFrame := 0
      currentTime := 0
      ffDecoder := none
      reader := none
      width := 0
      height := 0
      duration := 0
      totalFrames := 0 }

/-- What a successful Media Foundation source-reader open + output-format
negotiation finds in a file (`LoadVideoMF` up to `GetCurrentMediaType`):
probed frame size, the `MF_MT_FRAME_RATE` ratio when present, the
`MF_PD_DURATION` in seconds when present, whether ARGB32 was accepted
(else RGB32 with forced-opaque alpha), and the number of decodable
samples. -/
structure MFProbe where
  width : ℕ
  height : ℕ
  frameRate : Option (ℕ × ℕ)
  duration : Option ℚ
  alphaFormat : Bool
  streamLen : ℕ

/-- `INT_MAX`, the clamp for the computed total frame count. -/
def INT_MAX : ℤ := 2147483647

/-- The frame rate `LoadVideoMF` derives from the probe: the attribute
ratio when valid, else the 25 fps default. -/
def mfProbeRate (p : MFProbe) : ℚ :=
  match p.frameRate with
  | some (n, den) => if 0 < den ∧ 0 < n then (n : ℚ) / den else 25
  | none => 25

/-- The frame duration `LoadVideoMF` derives from the probe
(`1 / m_FrameRate`, or the literal 0.04 on the default path). -/
def mfProbeFrameDuration (p : MFProbe) : ℚ :=
  match p.frameRate with
  | some (n, den) => if 0 < den ∧ 0 < n then (den : ℚ) / n else 0.04
  | none => 0.04

/-- `VideoPlayer::LoadVideoMF`: reject resolutions of 0 or above 8192,
compute the frame rate (default 25 fps when the ratio attribute is absent
or degenerate) and duration/total-frame metadata, record the MF backend as
active, decode the first frame immediately and auto-enable play + loop.
`probe = none` models `MFCreateSourceReaderFromURL` or both
`SetCurrentMediaType` calls failing; texture creation is assumed to
succeed. -/
def loadVideoMF (s : VideoState) (probe : Option MFProbe) : VideoState × Bool :=
  match probe with
  | none => (s, false)
  | some p =>
    if 8192 < p.width ∨ 8192 < p.height ∨ p.width = 0 ∨ p.height = 0 then (s, false)
    else
      let totalF : ℤ :=
        match p.duration with
        | some du =>
          if INT_MAX < du * mfProbeRate p then INT_MAX else ⌊du * mfProbeRate p⌋
        | none => s.totalFrames
      let s1 := { s with
          width := (p.width : ℤ)
          height := (p.height : ℤ)
          frameRate := mfProbeRate p
          frameDuration := mfProbeFrameDuration p
          duration := (p.duration.getD s.duration)
          totalFrames := totalF
          loaded := true
          usingFFmpeg := false
          needsAlphaFix := ¬p.alphaFormat
          currentFrame := 0
          currentTime := 0
          endOfStream := false
          accumulatedTime := 0
          reader := some { pos := 0, total := p.streamLen }
          ffDecoder := none }
      let s2 := (mfDecodeNext s1).1
      ({ s2 with playing := true, loop := true }, true)

/-- What `FFmpegDecoder::Open` finds in a file once
`avformat_open_input` + stream/codec setup succeed: codec dimensions,
`r_frame_rate` and `avg_frame_rate` ratios, the container duration when
known, the stream's `nb_frames` when known, the pixel format's alpha flag,
and the number of decodable frames. -/
structure FFProbe where
  width : ℤ
  height : ℤ
  rFrameRate : Option (ℕ × ℕ)
  avgFrameRate : Option (ℕ × ℕ)
  duration : Option ℚ
  nbFrames : Option ℤ
  hasAlpha : Bool
  streamLen : ℕ

/-- The `avg_frame_rate` fallback of `FFmpegDecoder::Open` (default
25 fps). -/
def ffRateAvg (avg : Option (ℕ × ℕ)) : ℚ :=
  match avg with
  | some (n, den) => if 0 < n ∧ 0 < den then (n : ℚ) / den else 25
  | none => 25

/-- The frame-rate computation of `FFmpegDecoder::Open`: `r_frame_rate`
when valid, else `avg_frame_rate`, else 25. -/
def ffRate (r avg : Option (ℕ × ℕ)) : ℚ :=
  match r with
  | some (n, den) => if 0 < n ∧ 0 < den then (n : ℚ) / den else ffRateAvg avg
  | none => ffRateAvg avg

/-- `FFmpegDecoder::Open`: `none` models `avformat_open_input` /
stream-finding / codec-open failure; dimensions outside `(0, 8192]` are
rejected; total frames come from `nb_frames` when positive, else from
`duration * frameRate`, else 0.  Allocation of frames, packet, converter
and output buffer is assumed to succeed. -/
def ffOpen (probe : Option FFProbe) : Option FFDecoder :=
  match probe with
  | none => none
  | some p =>
    if p.width ≤ 0 ∨ p.height ≤ 0 ∨ 8192 < p.width ∨ 8192 < p.height then none
    else
      let rate := ffRate p.rFrameRate p.avgFrameRate
      let du := p.duration.getD 0
      let nbf := p.nbFrames.getD 0
      let totalF : ℤ :=
        if 0 < nbf then nbf
        else if 0 < du ∧ 0 < rate then ⌊du * rate⌋
        else 0
      some { opened := true
             width := p.width
             height := p.height
             duration := du
             frameRate := rate
             totalFrames := totalF
             hasAlpha := p.hasAlpha
             pos := 0
             total := p.streamLen
             eos := false }

/-- `VideoPlayer::LoadVideoFFmpeg`: bail out when FFmpeg support is not
compiled in (`HAS_FFMPEG`), open the file through `FFmpegDecoder`, copy the
probe results into the player state, record the FFmpeg backend as active,
decode the first frame and auto-enable play + loop. -/
def loadVideoFFmpeg (s : VideoState) (ffmpegAvailable : Bool)
    (probe : Option FFProbe) : VideoState × Bool :=
  if ffmpegAvailable = false then (s, false)
  else
    match ffOpen probe with
    | none => (s, false)
    | some d =>
      let s1 := { s with
          width := d.width
          height := d.height
          duration := d.duration
          frameRate := d.frameRate
          totalFrames := d.totalFrames
          frameDuration := if 0 < d.frameRate then 1 / d.frameRate else 0.04
          loaded := true
          usingFFmpeg := true
          needsAlphaFix := ¬d.hasAlpha
          currentFrame := 0
          currentTime := 0
          endOfStream := false
          accumulatedTime := 0
          ffDecoder := some (ffDecodeNext d).1 }
      ({ s1 with playing := true, loop := true }, true)

/-- `VideoPlayer::LoadVideo`.  `pathOk` models the null-path and `".."`
path-traversal checks (which precede the internal unload); `fileOk` models
`GetFileAttributesExW` success and the 4 GiB size limit.  The primary
(Media Foundation) backend is attempted first; only on its failure is the
FFmpeg fallback attempted.  Partial field writes of failed `LoadVideoMF`
attempts (all of which reset the reader) are dropped: they are overwritten
by any subsequent successful load and observed by no claim. -/
def playerLoadVideo (s : VideoState) (pathOk fileOk : Bool)
    (mfProbe : Option MFProbe) (ffmpegAvailable : Bool)
    (ffProbe : Option FFProbe) : VideoState × Bool :=
  if pathOk = false then (s, false)
  else
    let s0 := unloadVideoInternal s
    if fileOk = false then (s0, false)
    else
      let mfResult := loadVideoMF s0 mfProbe
      if mfResult.2 then mfResult
      else loadVideoFFmpeg s0 ffmpegAvailable ffProbe

/-!
## Video manager (`VideoManager` in `VideoPlayer.cpp`)
-/

/-- The `VideoManager` registry: `m_Players` (a map from id to player,
modelled as an association list with unique keys kept by insertion),
`m_NextVideoId` and the initialization flag. -/
structure VideoManagerState where
  initialized : Bool
  players : List (ℤ × VideoState)
  nextVideoId : ℤ

/-- Manager state right after a successful `VideoManager::Initialize`. -/
def initialManager : VideoManagerState where
  initialized := true
  players := []
  nextVideoId := 1

/-- `m_Players[id] = player` on a `std::map`: insert or replace. -/
def insertPlayer (ps : List (ℤ × VideoState)) (id : ℤ) (p : VideoState) :
    List (ℤ × VideoState) :=
  (id, p) :: ps.filter (fun q => q.1 != id)

/-- `std::map::find` on the player table. -/
def lookupPlayer : List (ℤ × VideoState) → ℤ → Option VideoState
  | [], _ => none
  | q :: qs, id => if q.1 = id then some q.2 else lookupPlayer qs id

/-- `VideoManager::GetPlayer`: map lookup, null for absent ids. -/
def managerGetPlayer (m : VideoManagerState) (id : ℤ) : Option VideoState :=
  lookupPlayer m.players id

/-- `VideoManager::LoadVideo`.  `pathGiven` is the null-path check;
`playerResult` abstracts `player->Initialize` + `player->LoadVideo` on the
fresh `VideoPlayer` (`none` = initialization failed or both decode backends
rejected the file).  Returns the sentinel id 0 on every failure; on
success allocates `m_NextVideoId++` with the `id <= 0` wraparound
protection resetting both to 1. -/
def managerLoadVideo (m : VideoManagerState) (pathGiven : Bool)
    (playerResult : Option VideoState) : ℤ × VideoManagerState :=
  if m.initialized = false ∨ pathGiven = false then (0, m)
  else if 32 ≤ m.players.length then (0, m)
  else
    match playerResult with
    | none => (0, m)
    | some p =>
      let idRaw := m.nextVideoId
      let id := if idRaw ≤ 0 then 1 else idRaw
      let nextId := if idRaw ≤ 0 then 1 else idRaw + 1
      (id, { m with players := insertPlayer m.players id p, nextVideoId := nextId })

/-- `VideoManager::UnloadVideo`: erase the id when present. -/
def managerUnloadVideo (m : VideoManagerState) (id : ℤ) : VideoManagerState :=
  { m with players := m.players.filter (fun q => q.1 != id) }

/-- `VideoPlayer::Play`: no-op when nothing is loaded, else start playing
and reset the pacing clock. -/
def playerPlay (s : VideoState) : VideoState :=
  if s.loaded = false then s
  else { s with playing := true, accumulatedTime := 0 }

/-- `DaroRenderer::PlayVideo` (the route every `Daro_PlayVideo` call
takes): look the player up by id and call `Play` on it; an id the manager
does not know is a no-op. -/
def managerPlayVideo (m : VideoManagerState) (id : ℤ) : VideoManagerState :=
  match managerGetPlayer m id with
  | none => m
  | some p => { m with players := insertPlayer m.players id (playerPlay p) }

/-- A concrete FFmpeg probe: a 1920x1080, 25 fps file the primary backend
rejects (e.g. a ProRes MOV). -/
def ffProbeExample : FFProbe where
  width := 1920
  height := 1080
  rFrameRate := some (25, 1)
  avgFrameRate := none
  duration := some 10
  nbFrames := some 250
  hasAlpha := true
  streamLen := 250

/-- A manager-level operation: one `LoadVideo` call (with its abstracted
per-player outcome) or one `UnloadVideo` call. -/
inductive ManagerOp where
  | load (pathGiven : Bool) (playerResult : Option VideoState)
  | unload (id : ℤ)

/-- One manager step, also returning the ids handed out by successful
loads (a load is successful exactly when it returns a nonzero id). -/
def managerStep (m : VideoManagerState) : ManagerOp → VideoManagerState × List ℤ
  | .load pg res =>
    let r := managerLoadVideo m pg res
    (r.2, if r.1 = 0 then [] else [r.1])
  | .unload id => (managerUnloadVideo m id, [])

/-- Run a sequence of manager operations from a state, accumulating the
issued ids. -/
def managerRunAux (acc : VideoManagerState × List ℤ) (ops : List ManagerOp) :
    VideoManagerState × List ℤ :=
  ops.foldl (fun a op =>
    let r := managerStep a.1 op
    (r.1, a.2 ++ r.2)) acc

/-- Run a sequence of manager operations from the freshly initialized
manager. -/
def managerRun (ops : List ManagerOp) : VideoManagerState × List ℤ :=
  managerRunAux (initialManager, []) ops

end Daro

namespace Daro

/-!
# Theorems
-/

/-- Auxiliary: appending one update call to a sequence. -/
theorem applyUpdates_append_single (t : LayerTable) (ops : List (ℤ × DaroLayer))
    (op : ℤ × DaroLayer) :
    applyUpdates t (ops ++ [op]) = updateLayer (applyUpdates t ops) op.1 (some op.2) := by
  simp [applyUpdates]

/-- Auxiliary: `lastUpdateAt` after appending one call. -/
theorem lastUpdateAt_append_single (ops : List (ℤ × DaroLayer)) (op : ℤ × DaroLayer)
    (index : ℤ) :
    lastUpdateAt (ops ++ [op]) index =
      if op.1 = index then some op.2 else lastUpdateAt ops index := by
  by_cases h : op.1 = index <;>
    simp [lastUpdateAt, List.filter_append, h]

/-- C6: for every `N ∈ [0,64]` and `i < N`, after `setLayerCount N` and any
sequence of `updateLayer` calls, `getLayer i` returns exactly the record
passed to the most recent `updateLayer(i, ·)` call. -/
theorem getLayer_after_updates (t : LayerTable) (N : ℤ) (hN0 : 0 ≤ N) (hN64 : N ≤ 64)
    (ops : List (ℤ × DaroLayer)) (i : ℤ) (hi0 : 0 ≤ i) (hiN : i < N)
    (rec₀ : DaroLayer) (hlast : lastUpdateAt ops i = some rec₀) :
    getLayer (applyUpdates (setLayerCount t N) ops) i = some rec₀ := by
  have hi64 : i < MAX_LAYERS := lt_of_lt_of_le hiN (by simpa [MAX_LAYERS] using hN64)
  clear hN0 hN64 hiN
  induction ops using List.reverseRecOn generalizing rec₀ with
  | nil => simp [lastUpdateAt] at hlast
  | append_singleton ops op ih =>
    rw [applyUpdates_append_single]
    rw [lastUpdateAt_append_single] at hlast
    by_cases h : op.1 = i
    · subst h
      simp only [if_pos rfl] at hlast
      cases hlast
      simp [updateLayer, getLayer, not_lt.mpr hi0, not_le.mpr hi64]
    · rw [if_neg h] at hlast
      have hrec := ih rec₀ hlast
      have hcond : ¬(i < 0 ∨ MAX_LAYERS ≤ i) := by
        push_neg
        exact ⟨hi0, hi64⟩
      simp only [updateLayer]
      by_cases hb : op.1 < 0 ∨ MAX_LAYERS ≤ op.1
      · simpa [hb] using hrec
      · rw [if_neg hb]
        simp only [getLayer, if_neg hcond, Option.some.injEq] at hrec ⊢
        have hne : i ≠ op.1 := fun hc => h hc.symm
        rw [if_neg hne]
        exact hrec

/-- Witness for C6 at a concrete instance. -/
theorem getLayer_after_updates_witness :
    getLayer
      (applyUpdates (setLayerCount ⟨fun _ => zeroLayer, 0⟩ 64)
        [(3, { zeroLayer with id := 7 }), (3, { zeroLayer with id := 9 })]) 3 =
      some { zeroLayer with id := 9 } :=
  getLayer_after_updates ⟨fun _ => zeroLayer, 0⟩ 64 (by norm_num) (by norm_num)
    [(3, { zeroLayer with id := 7 }), (3, { zeroLayer with id := 9 })] 3
    (by norm_num) (by norm_num) _ (by simp [lastUpdateAt])

/-- C9: a call to `endFrame` with elapsed time equal to 2.5 × the target
frame interval adds `⌊elapsed / targetInterval⌋ - 1 = 1` to the
dropped-frames counter. -/
theorem droppedFrames_at_two_point_five (targetFps : ℚ) (hfps : 0 < targetFps)
    (elapsed : ℚ) (helapsed : elapsed = (5 / 2) * (1 / targetFps)) :
    droppedFramesAdded elapsed targetFps = ⌊elapsed / (1 / targetFps)⌋ - 1 ∧
      droppedFramesAdded elapsed targetFps = 1 := by
  subst helapsed
  have ht : (0 : ℚ) < 1 / targetFps := by positivity
  have hdiv : (5 / 2) * (1 / targetFps) / (1 / targetFps) = (5 / 2 : ℚ) := by
    field_simp
    ring
  have hgt : (5 / 2) * (1 / targetFps) > 1 / targetFps * (3 / 2) := by
    nlinarith
  have hfloor : ⌊((5 : ℚ) / 2)⌋ = 2 := by norm_num [Int.floor_eq_iff]
  constructor
  · simp only [droppedFramesAdded, if_pos hgt, hdiv, hfloor]
    norm_num
  · simp only [droppedFramesAdded, if_pos hgt, hdiv, hfloor]
    norm_num

/-- Witness for C9 at `targetFps = 50`. -/
theorem droppedFrames_at_two_point_five_witness :
    droppedFramesAdded ((5 / 2) * (1 / 50)) 50 = ⌊((5 : ℚ) / 2) * (1 / 50) / (1 / 50)⌋ - 1 ∧
      droppedFramesAdded ((5 / 2) * (1 / 50)) 50 = 1 :=
  droppedFrames_at_two_point_five 50 (by norm_num) _ rfl

/-- C2: if the region is locked and the reader never unlocks it, `Write`
returns (after the bounded wait) leaving the whole buffer state — pixels
and frame number — unchanged, the write dropped entirely; if it is not
locked, `Write` copies the pixel data (bulk copy of `stride * height` bytes
when the strides agree, else row by row over `min srcStride stride` bytes,
everything past the copied region untouched) and then stamps the frame
number. -/
theorem fbWrite_spec (s : FrameBufferState) (src : ℕ → ℕ) (srcStride : ℕ) (fn : ℤ) :
    (s.isLocked = true → fbWrite s src srcStride fn false = s) ∧
    (∀ u : Bool, s.isLocked = false →
      (fbWrite s src srcStride fn u).frameNumber = fn ∧
      (srcStride = s.stride →
        (∀ i, i < s.stride * s.height →
          (fbWrite s src srcStride fn u).pixels i = src i) ∧
        (∀ i, s.stride * s.height ≤ i →
          (fbWrite s src srcStride fn u).pixels i = s.pixels i)) ∧
      (srcStride ≠ s.stride →
        (∀ y x, y < s.height → x < min srcStride s.stride →
          (fbWrite s src srcStride fn u).pixels (y * s.stride + x) =
            src (y * srcStride + x)) ∧
        (∀ i, s.height ≤ i / s.stride →
          (fbWrite s src srcStride fn u).pixels i = s.pixels i))) := by
  constructor
  · intro h
    simp [fbWrite, h]
  · intro u h
    have hcond : ¬(s.isLocked ∧ u = false) := by simp [h]
    refine ⟨by simp [fbWrite, hcond], ?_, ?_⟩
    · intro hstride
      constructor
      · intro i hi
        simp [fbWrite, hcond, hstride, hi]
      · intro i hi
        simp [fbWrite, hcond, hstride, not_lt.mpr hi]
    · intro hstride
      constructor
      · intro y x hy hx
        have hxs : x < s.stride := lt_of_lt_of_le hx (min_le_right _ _)
        have hst : 0 < s.stride := by omega
        have hdiv : (y * s.stride + x) / s.stride = y := by
          rw [mul_comm, Nat.mul_add_div hst, Nat.div_eq_of_lt hxs, Nat.add_zero]
        have hmod : (y * s.stride + x) % s.stride = x := by
          rw [mul_comm, Nat.mul_add_mod, Nat.mod_eq_of_lt hxs]
        simp only [fbWrite, if_neg hcond]
        simp only [if_neg hstride, hdiv, hmod]
        rw [if_pos ⟨hy, hx⟩, mul_comm]
      · intro i hi
        simp [fbWrite, hcond, hstride, not_lt.mpr hi]

/-- Witness for C2: a concrete locked buffer, never unlocked — the write is
dropped and the state is untouched. -/
theorem fbWrite_spec_witness :
    fbWrite ⟨2, 2, 8, fun _ => 5, 3, true⟩ (fun _ => 9) 8 42 false =
      ⟨2, 2, 8, fun _ => 5, 3, true⟩ :=
  (fbWrite_spec ⟨2, 2, 8, fun _ => 5, 3, true⟩ (fun _ => 9) 8 42).1 rfl

/-- C7 counterexample: `RenderCircle` does NOT multiply every color channel
by the layer's opacity — for a white circle layer at opacity one half, the
red channel of the issued fill color stays 1 instead of becoming 1/2. -/
theorem renderCircle_color_counterexample :
    (renderCircle circleCounterLayer).colorR ≠
      circleCounterLayer.colorR * circleCounterLayer.opacity := by
  simp [renderCircle, circleCounterLayer, zeroLayer]

/-- C7 (amended): for every Circle layer the rendered shape is a filled
ellipse centered at `(posX, posY)` with both radii equal to
`min(sizeX, sizeY) / 2`, drawn with the highest-quality antialiasing, and
the fill color keeps the layer's RGB channels unchanged while only the
alpha channel is multiplied by the layer's opacity. -/
theorem renderCircle_draw (l : DaroLayer) :
    (renderCircle l).centerX = l.posX ∧
    (renderCircle l).centerY = l.posY ∧
    (renderCircle l).radiusX = min l.sizeX l.sizeY / 2 ∧
    (renderCircle l).radiusY = min l.sizeX l.sizeY / 2 ∧
    (renderCircle l).colorR = l.colorR ∧
    (renderCircle l).colorG = l.colorG ∧
    (renderCircle l).colorB = l.colorB ∧
    (renderCircle l).colorA = l.colorA * l.opacity ∧
    (renderCircle l).perPrimitiveAA = true := by
  refine ⟨rfl, rfl, ?_, ?_, rfl, rfl, rfl, rfl, rfl⟩ <;>
    · simp only [renderCircle]
      ring

/-- Auxiliary: membership in the optional show-bounds overlay. -/
theorem mem_showBoundsOpt (sb : Bool) (k : ℕ) (a : RenderAction)
    (ha : a ∈ (if sb then [RenderAction.boundingBox k] else [])) :
    a = RenderAction.boundingBox k := by
  cases sb <;> simpa using ha

/-- Auxiliary: every action emitted by `dispatchLayer` for layer `k` is
tagged with index `k`. -/
theorem dispatchLayer_index (layers : List DaroLayer) (sb : Bool) (k : ℕ)
    (a : RenderAction) (ha : a ∈ dispatchLayer layers sb k) :
    a.index = k := by
  unfold dispatchLayer at ha
  split at ha
  · simp at ha
  · split at ha
    · simp at ha
    · split at ha
      · rcases List.mem_cons.mp ha with rfl | ha
        · rfl
        · rw [mem_showBoundsOpt sb k a ha]
          rfl
      · split at ha
        · simp at ha
        · split at ha
          · split at ha
            · simp at ha
            · rcases List.mem_cons.mp ha with rfl | ha
              · rfl
              · rw [mem_showBoundsOpt sb k a ha]
                rfl
          · rcases List.mem_cons.mp ha with rfl | ha
            · rfl
            · rw [mem_showBoundsOpt sb k a ha]
              rfl

/-- Auxiliary: membership in the full dispatch sequence. -/
theorem mem_renderDispatch (layers : List DaroLayer) (sb : Bool) (a : RenderAction) :
    a ∈ renderDispatch layers sb ↔
      ∃ k, k < layers.length ∧ a ∈ dispatchLayer layers sb k := by
  simp [renderDispatch, List.mem_flatMap, List.mem_range]

/-- Auxiliary: an action in the dispatch sequence was emitted for the layer
index it is tagged with. -/
theorem mem_dispatchLayer_of_mem (layers : List DaroLayer) (sb : Bool)
    (a : RenderAction) (ha : a ∈ renderDispatch layers sb) :
    a ∈ dispatchLayer layers sb a.index := by
  obtain ⟨k, _, hak⟩ := (mem_renderDispatch layers sb a).mp ha
  rw [dispatchLayer_index layers sb k a hak]
  exact hak

/-- Auxiliary: the head of a filtered strictly increasing list is its least
element satisfying the predicate. -/
theorem head_filter_min (p : ℕ → Bool) (l : List ℕ) (hl : l.Pairwise (· < ·))
    (m : ℕ) (h : (l.filter p).head? = some m) :
    m ∈ l ∧ p m = true ∧ ∀ j ∈ l, j < m → p j = false := by
  induction l with
  | nil => simp at h
  | cons x xs ih =>
    rcases List.pairwise_cons.mp hl with ⟨hx, hxs⟩
    by_cases hp : p x
    · rw [List.filter_cons_of_pos hp] at h
      simp only [List.head?_cons, Option.some.injEq] at h
      subst h
      refine ⟨List.mem_cons_self _ _, hp, ?_⟩
      intro j hj hjm
      rcases List.mem_cons.mp hj with rfl | hj
      · omega
      · exact absurd (hx j hj) (by omega)
    · rw [List.filter_cons_of_neg (by simpa using hp)] at h
      obtain ⟨hm, hpm, hmin⟩ := ih hxs h
      refine ⟨List.mem_cons_of_mem _ hm, hpm, ?_⟩
      intro j hj hjm
      rcases List.mem_cons.mp hj with rfl | hj
      · simpa using hp
      · exact hmin j hj hjm

/-- Auxiliary: an empty filter head means no element satisfies the
predicate. -/
theorem head_filter_none (p : ℕ → Bool) (l : List ℕ)
    (h : (l.filter p).head? = none) : ∀ j ∈ l, p j = false := by
  intro j hj
  rw [List.head?_eq_none_iff] at h
  simpa using List.filter_eq_nil_iff.mp h j hj

/-- Auxiliary: unfolding the mask-index predicate. -/
theorem maskPred_eq_true (layers : List DaroLayer) (tid : ℤ) (j : ℕ) :
    maskPred layers tid j = true ↔
      ∃ lj, layers[j]? = some lj ∧ listsTarget lj tid := by
  unfold maskPred
  rcases h : layers[j]? with _ | lj <;> simp [h]

/-- C4: in a rendered frame, an active non-mask non-group layer is
dispatched through the masked path if and only if some Mask layer of the
snapshot lists its id among its (first `min(count,64)`, nonnegative) target
ids; the mask applied is the first such Mask layer in scan order (every
earlier layer does not list the target), and a layer listed by no mask —
including any target id matching no layer, which is simply ignored —
renders through the normal path. -/
theorem masked_dispatch_first_mask (layers : List DaroLayer) (sb : Bool) (i : ℕ)
    (l : DaroLayer) (hl : layers[i]? = some l) (hact : l.active ≠ 0)
    (hmask : l.layerType ≠ TYPE_MASK) (hgrp : l.layerType ≠ TYPE_GROUP) :
    ((∃ m, RenderAction.masked i m ∈ renderDispatch layers sb) ↔
      ∃ j : ℕ, ∃ lj, layers[j]? = some lj ∧ listsTarget lj l.id) ∧
    (∀ m, RenderAction.masked i m ∈ renderDispatch layers sb →
      (∃ lm, layers[m]? = some lm ∧ listsTarget lm l.id) ∧
      ∀ (j : ℕ) lj, j < m → layers[j]? = some lj → ¬listsTarget lj l.id) ∧
    (RenderAction.normal i ∈ renderDispatch layers sb ↔
      ¬∃ j : ℕ, ∃ lj, layers[j]? = some lj ∧ listsTarget lj l.id) := by
  have hi : i < layers.length := by
    rcases List.getElem?_eq_some_iff.mp hl with ⟨h, _⟩
    exact h
  have hpair : (List.range layers.length).Pairwise (· < ·) := List.pairwise_lt_range _
  have hstepSome : ∀ m₀, (maskListFor layers l.id).head? = some m₀ →
      m₀ < layers.length →
      dispatchLayer layers sb i =
        RenderAction.masked i m₀ ::
          (if sb then [RenderAction.boundingBox i] else []) := by
    intro m₀ hh hlt
    simp only [dispatchLayer, hl, if_neg hact, if_neg hmask, if_neg hgrp, hh,
      if_neg (not_le.mpr hlt)]
  have hstepNone : (maskListFor layers l.id).head? = none →
      dispatchLayer layers sb i =
        RenderAction.normal i ::
          (if sb then [RenderAction.boundingBox i] else []) := by
    intro hh
    simp only [dispatchLayer, hl, if_neg hact, if_neg hmask, if_neg hgrp, hh]
  have haux : ∀ m₀, (maskListFor layers l.id).head? = some m₀ →
      m₀ < layers.length ∧ maskPred layers l.id m₀ = true ∧
        ∀ j, j < m₀ → maskPred layers l.id j = false := by
    intro m₀ hm
    obtain ⟨hmem, hpm, hmin⟩ := head_filter_min _ _ hpair m₀ hm
    have hmlen : m₀ < layers.length := List.mem_range.mp hmem
    exact ⟨hmlen, hpm, fun j hj =>
      hmin j (List.mem_range.mpr (hj.trans hmlen)) hj⟩
  have hnone : (maskListFor layers l.id).head? = none →
      ∀ j, j < layers.length → maskPred layers l.id j = false := by
    intro h j hj
    exact head_filter_none _ _ h j (List.mem_range.mpr hj)
  have hmem_iff : ∀ a : RenderAction, a.index = i →
      (a ∈ renderDispatch layers sb ↔ a ∈ dispatchLayer layers sb i) := by
    intro a hidx
    constructor
    · intro ha
      have h := mem_dispatchLayer_of_mem layers sb a ha
      rwa [hidx] at h
    · intro ha
      exact (mem_renderDispatch layers sb a).mpr ⟨i, hi, ha⟩
  refine ⟨⟨?_, ?_⟩, ?_, ⟨?_, ?_⟩⟩
  · rintro ⟨m, hm⟩
    have hm' := (hmem_iff (RenderAction.masked i m) rfl).mp hm
    rcases hh : (maskListFor layers l.id).head? with _ | m₀
    · rw [hstepNone hh] at hm'
      rcases List.mem_cons.mp hm' with h | h
      · exact absurd h (by simp)
      · exact absurd (mem_showBoundsOpt sb i _ h) (by simp)
    · obtain ⟨hmlen, hpm, _⟩ := haux m₀ hh
      obtain ⟨lm, hlm, hltm⟩ := (maskPred_eq_true layers l.id m₀).mp hpm
      exact ⟨m₀, lm, hlm, hltm⟩
  · rintro ⟨j, lj, hj, hlist⟩
    have hjlen : j < layers.length := by
      rcases List.getElem?_eq_some_iff.mp hj with ⟨h, _⟩
      exact h
    have hpj : maskPred layers l.id j = true :=
      (maskPred_eq_true layers l.id j).mpr ⟨lj, hj, hlist⟩
    rcases hh : (maskListFor layers l.id).head? with _ | m₀
    · exact absurd (hnone hh j hjlen) (by simp [hpj])
    · obtain ⟨hmlen, _, _⟩ := haux m₀ hh
      refine ⟨m₀, (hmem_iff (RenderAction.masked i m₀) rfl).mpr ?_⟩
      rw [hstepSome m₀ hh hmlen]
      exact List.mem_cons_self _ _
  · intro m hm
    have hm' := (hmem_iff (RenderAction.masked i m) rfl).mp hm
    rcases hh : (maskListFor layers l.id).head? with _ | m₀
    · rw [hstepNone hh] at hm'
      rcases List.mem_cons.mp hm' with h | h
      · exact absurd h (by simp)
      · exact absurd (mem_showBoundsOpt sb i _ h) (by simp)
    · obtain ⟨hmlen, hpm, hmin⟩ := haux m₀ hh
      rw [hstepSome m₀ hh hmlen] at hm'
      have hmm : m = m₀ := by
        rcases List.mem_cons.mp hm' with h | h
        · simpa using h
        · exact absurd (mem_showBoundsOpt sb i _ h) (by simp)
      subst hmm
      refine ⟨(maskPred_eq_true layers l.id m).mp hpm, ?_⟩
      intro j lj hjlt hjget hlist
      have hpj : maskPred layers l.id j = true :=
        (maskPred_eq_true layers l.id j).mpr ⟨lj, hjget, hlist⟩
      rw [hmin j hjlt] at hpj
      exact Bool.false_ne_true hpj
  · intro hmem
    rintro ⟨j, lj, hj, hlist⟩
    have hm' := (hmem_iff (RenderAction.normal i) rfl).mp hmem
    have hjlen : j < layers.length := by
      rcases List.getElem?_eq_some_iff.mp hj with ⟨h, _⟩
      exact h
    have hpj : maskPred layers l.id j = true :=
      (maskPred_eq_true layers l.id j).mpr ⟨lj, hj, hlist⟩
    rcases hh : (maskListFor layers l.id).head? with _ | m₀
    · exact absurd (hnone hh j hjlen) (by simp [hpj])
    · obtain ⟨hmlen, _, _⟩ := haux m₀ hh
      rw [hstepSome m₀ hh hmlen] at hm'
      rcases List.mem_cons.mp hm' with h | h
      · exact absurd h (by simp)
      · exact absurd (mem_showBoundsOpt sb i _ h) (by simp)
  · intro hno
    rcases hh : (maskListFor layers l.id).head? with _ | m₀
    · refine (hmem_iff (RenderAction.normal i) rfl).mpr ?_
      rw [hstepNone hh]
      exact List.mem_cons_self _ _
    · obtain ⟨hmlen, hpm, _⟩ := haux m₀ hh
      obtain ⟨lm, hlm, hltm⟩ := (maskPred_eq_true layers l.id m₀).mp hpm
      exact absurd ⟨m₀, lm, hlm, hltm⟩ hno

/-- Witness for C4: in a snapshot holding one Mask layer listing target id
5 and one active Rectangle layer with id 5, the rectangle is dispatched
through the masked path. -/
theorem masked_dispatch_first_mask_witness :
    ∃ m, RenderAction.masked 1 m ∈
      renderDispatch [previewMaskLayer, rectTargetLayer] false :=
  ((masked_dispatch_first_mask [previewMaskLayer, rectTargetLayer] false 1
      rectTargetLayer rfl (by decide) (by decide) (by decide)).1).mpr
    ⟨0, previewMaskLayer, rfl, by decide⟩

/-- C5 counterexample: with the debug bounding-box overlay disabled
(`showBounds = false`), an active Mask layer still produces a visible draw:
`RenderWithMasks` unconditionally calls `RenderRectangle` on every active
Mask layer as a preview, so the mask is rendered as visible content even
though no debug overlay is requested. -/
theorem maskPreview_visible_counterexample :
    RenderAction.maskPreview 0 ∈ renderDispatch [previewMaskLayer] false ∧
    RenderAction.boundingBox 0 ∉ renderDispatch [previewMaskLayer] false := by
  constructor <;> decide

/-- C5 (amended): during `Render`, iterating layers in original order,
Group layers are never rendered (no draw of any kind), and Mask layers are
never dispatched through the normal or masked layer paths — but an active
Mask layer is always rendered as a visible rectangle preview, with an
additional bounding-box overlay exactly when the debug show-bounds flag is
set. -/
theorem mask_group_render (layers : List DaroLayer) (sb : Bool) (i : ℕ)
    (l : DaroLayer) (hl : layers[i]? = some l) :
    (l.layerType = TYPE_GROUP → ∀ a ∈ renderDispatch layers sb, a.index ≠ i) ∧
    (l.layerType = TYPE_MASK →
      (RenderAction.maskPreview i ∈ renderDispatch layers sb ↔ l.active ≠ 0) ∧
      (RenderAction.boundingBox i ∈ renderDispatch layers sb ↔
        (l.active ≠ 0 ∧ sb = true)) ∧
      (∀ m, RenderAction.masked i m ∉ renderDispatch layers sb) ∧
      RenderAction.normal i ∉ renderDispatch layers sb) := by
  have hi : i < layers.length := by
    rcases List.getElem?_eq_some_iff.mp hl with ⟨h, _⟩
    exact h
  constructor
  · intro hg a ha hidx
    have ha' := mem_dispatchLayer_of_mem layers sb a ha
    rw [hidx] at ha'
    by_cases h0 : l.active = 0
    · simp [dispatchLayer, hl, h0] at ha'
    · simp [dispatchLayer, hl, h0, hg, TYPE_GROUP, TYPE_MASK] at ha'
  · intro hm
    by_cases h0 : l.active = 0
    · have hdisp : dispatchLayer layers sb i = [] := by
        simp [dispatchLayer, hl, h0]
      have hnot : ∀ a : RenderAction, a.index = i → a ∉ renderDispatch layers sb := by
        intro a hidx ha
        have ha' := mem_dispatchLayer_of_mem layers sb a ha
        rw [hidx, hdisp] at ha'
        simp at ha'
      refine ⟨?_, ?_, ?_, ?_⟩
      · simp only [h0, ne_eq, not_true_eq_false, iff_false]
        exact hnot (RenderAction.maskPreview i) rfl
      · simp only [h0, ne_eq, not_true_eq_false, false_and, iff_false]
        exact hnot (RenderAction.boundingBox i) rfl
      · exact fun m => hnot (RenderAction.masked i m) rfl
      · exact hnot (RenderAction.normal i) rfl
    · have hdisp : dispatchLayer layers sb i =
          RenderAction.maskPreview i ::
            (if sb then [RenderAction.boundingBox i] else []) := by
        simp [dispatchLayer, hl, h0, hm]
      refine ⟨?_, ?_, ?_, ?_⟩
      · simp only [h0, ne_eq, not_false_eq_true, iff_true]
        exact (mem_renderDispatch layers sb _).mpr
          ⟨i, hi, by rw [hdisp]; exact List.mem_cons_self _ _⟩
      · constructor
        · intro hb
          have hb' := mem_dispatchLayer_of_mem layers sb _ hb
          rw [show (RenderAction.boundingBox i).index = i from rfl, hdisp] at hb'
          rcases List.mem_cons.mp hb' with h | h
          · exact absurd h (by simp)
          · cases sb with
            | false => simp at h
            | true => exact ⟨h0, rfl⟩
        · rintro ⟨-, rfl⟩
          refine (mem_renderDispatch _ _ _).mpr ⟨i, hi, ?_⟩
          rw [hdisp]
          simp
      · intro m hb
        have hb' := mem_dispatchLayer_of_mem layers sb _ hb
        rw [show (RenderAction.masked i m).index = i from rfl, hdisp] at hb'
        rcases List.mem_cons.mp hb' with h | h
        · exact absurd h (by simp)
        · exact absurd (mem_showBoundsOpt sb i _ h) (by simp)
      · intro hb
        have hb' := mem_dispatchLayer_of_mem layers sb _ hb
        rw [show (RenderAction.normal i).index = i from rfl, hdisp] at hb'
        rcases List.mem_cons.mp hb' with h | h
        · exact absurd h (by simp)
        · exact absurd (mem_showBoundsOpt sb i _ h) (by simp)

/-- Witness for the amended C5: the active Mask layer renders its preview
rectangle. -/
theorem mask_group_render_witness :
    RenderAction.maskPreview 0 ∈ renderDispatch [previewMaskLayer] true :=
  (((mask_group_render [previewMaskLayer] true 0 previewMaskLayer rfl).2
      (by decide)).1).mpr (by decide)

/-- Auxiliary: the FFmpeg update loop exits when less than one frame is
due. -/
theorem ffUpdateLoop_stop (fuel : ℕ) (s : VideoState) (dec : Bool)
    (h : s.accumulatedTime < s.frameDuration) :
    ffUpdateLoop fuel s dec = (s, dec) := by
  cases fuel with
  | zero => rfl
  | succ f =>
    simp only [ffUpdateLoop]
    rw [if_neg]
    rintro ⟨h1, -⟩
    exact absurd h1 (not_le.mpr h)

/-- Auxiliary: one successful decode iteration of the FFmpeg update loop. -/
theorem ffUpdateLoop_step (fuel : ℕ) (s : VideoState) (dec : Bool) (d : FFDecoder)
    (hd : s.ffDecoder = some d) (hopen : d.opened = true) (hdeos : d.eos = false)
    (hseos : s.endOfStream = false) (hle : s.frameDuration ≤ s.accumulatedTime)
    (hpos : d.pos < d.total) :
    ffUpdateLoop (fuel + 1) s dec =
      ffUpdateLoop fuel
        { s with
            accumulatedTime := s.accumulatedTime - s.frameDuration
            ffDecoder := some { d with pos := d.pos + 1 }
            currentFrame := s.currentFrame + 1
            currentTime :=
              if 0 < s.frameRate then ((s.currentFrame : ℚ) + 1) / s.frameRate
              else 0 }
        true := by
  have h1 : ¬(d.opened = false ∨ d.eos = true) := by simp [hopen, hdeos]
  simp only [ffUpdateLoop]
  rw [if_pos ⟨hle, hseos⟩]
  simp only [hd, ffDecodeNext, if_neg h1, if_pos hpos]
  norm_num

/-- Auxiliary: draining `k` frames through the FFmpeg update loop when the
decoder holds at least `k` and the accumulator due count is exactly `k`. -/
theorem ffUpdateLoop_count (k : ℕ) :
    ∀ (fuel : ℕ) (s : VideoState) (dec : Bool) (d : FFDecoder),
      s.ffDecoder = some d → d.opened = true → d.eos = false →
      s.endOfStream = false → 0 < s.frameDuration → k ≤ fuel →
      d.pos + k ≤ d.total →
      (k : ℚ) * s.frameDuration ≤ s.accumulatedTime →
      s.accumulatedTime - (k : ℚ) * s.frameDuration < s.frameDuration →
      (ffUpdateLoop fuel s dec).1.currentFrame = s.currentFrame + k ∧
      (ffUpdateLoop fuel s dec).1.accumulatedTime =
        s.accumulatedTime - (k : ℚ) * s.frameDuration ∧
      (∃ d₁, (ffUpdateLoop fuel s dec).1.ffDecoder = some d₁ ∧
        d₁.pos = d.pos + k) ∧
      (ffUpdateLoop fuel s dec).2 = (if k = 0 then dec else true) := by
  induction k with
  | zero =>
    intro fuel s dec d hd _ _ _ _ _ _ hlow hhigh
    have hlt : s.accumulatedTime < s.frameDuration := by
      simpa using hhigh
    rw [ffUpdateLoop_stop fuel s dec hlt]
    simp [hd]
  | succ k ih =>
    intro fuel s dec d hd hopen hdeos hseos hfd hfuel htot hlow hhigh
    obtain ⟨f, rfl⟩ : ∃ f, fuel = f + 1 := ⟨fuel - 1, by omega⟩
    have hk0 : (0 : ℚ) ≤ (k : ℚ) := Nat.cast_nonneg k
    have hle : s.frameDuration ≤ s.accumulatedTime := by
      push_cast at hlow
      nlinarith
    have hpos : d.pos < d.total := by omega
    have hstep := ffUpdateLoop_step f s dec d hd hopen hdeos hseos hle hpos
    have hres := ih f
      { s with
          accumulatedTime := s.accumulatedTime - s.frameDuration
          ffDecoder := some { d with pos := d.pos + 1 }
          currentFrame := s.currentFrame + 1
          currentTime :=
            if 0 < s.frameRate then ((s.currentFrame : ℚ) + 1) / s.frameRate
            else 0 }
      true { d with pos := d.pos + 1 }
      rfl hopen hdeos hseos hfd (by omega)
      (by show d.pos + 1 + k ≤ d.total; omega)
      (by show (k : ℚ) * s.frameDuration ≤ s.accumulatedTime - s.frameDuration
          push_cast at hlow
          nlinarith)
      (by show s.accumulatedTime - s.frameDuration - (k : ℚ) * s.frameDuration <
            s.frameDuration
          push_cast at hhigh
          nlinarith)
    obtain ⟨hcf, hacc, ⟨d₁, hd₁, hp₁⟩, hflag⟩ := hres
    have hcf2 : (ffUpdateLoop (f + 1) s dec).1.currentFrame =
        s.currentFrame + 1 + (k : ℤ) := by
      rw [hstep]
      exact hcf
    have hacc2 : (ffUpdateLoop (f + 1) s dec).1.accumulatedTime =
        s.accumulatedTime - s.frameDuration - (k : ℚ) * s.frameDuration := by
      rw [hstep]
      exact hacc
    have hp2 : d₁.pos = d.pos + 1 + k := hp₁
    have hflag2 : (ffUpdateLoop (f + 1) s dec).2 = (if k = 0 then true else true) := by
      rw [hstep]
      exact hflag
    refine ⟨?_, ?_, ⟨d₁, by
      rw [hstep]
      exact hd₁, by omega⟩, ?_⟩
    · rw [hcf2]
      push_cast
      ring
    · rw [hacc2]
      push_cast
      ring
    · rw [hflag2]
      simp

/-- Auxiliary: seeking to frame 0 on the FFmpeg backend puts the frame
counter at 0 and does not touch the playing flag. -/
theorem seekToFrameInternal_zero_ff (t : VideoState) (hload : t.loaded = true)
    (hff : t.usingFFmpeg = true) :
    (seekToFrameInternal t 0).currentFrame = 0 ∧
    (seekToFrameInternal t 0).playing = t.playing := by
  have hf : max (0 : ℤ) (min 0 (if 0 < t.totalFrames then t.totalFrames - 1 else 0)) = 0 :=
    max_eq_left (min_le_left _ _)
  rcases h : t.ffDecoder with _ | d <;>
    simp [seekToFrameInternal, hload, hff, h, hf]

/-- Auxiliary: the iteration of the FFmpeg update loop that hits
end-of-stream seeks back to frame 0 and keeps playing (loop mode) or stops
holding the current frame counter, and breaks out of the loop. -/
theorem ffUpdateLoop_eos_hit (fuel : ℕ) (s : VideoState) (dec : Bool) (d : FFDecoder)
    (hd : s.ffDecoder = some d) (hopen : d.opened = true) (hdeos : d.eos = false)
    (hseos : s.endOfStream = false) (hle : s.frameDuration ≤ s.accumulatedTime)
    (hpos : d.total ≤ d.pos) (hload : s.loaded = true) (hff : s.usingFFmpeg = true) :
    (s.loop = true → (ffUpdateLoop (fuel + 1) s dec).1.currentFrame = 0 ∧
        (ffUpdateLoop (fuel + 1) s dec).1.playing = true) ∧
    (s.loop = false → (ffUpdateLoop (fuel + 1) s dec).1.playing = false ∧
        (ffUpdateLoop (fuel + 1) s dec).1.currentFrame = s.currentFrame) := by
  have h1 : ¬(d.opened = false ∨ d.eos = true) := by simp [hopen, hdeos]
  have h2 : ¬d.pos < d.total := not_lt.mpr hpos
  constructor
  · intro hloop
    simp only [ffUpdateLoop]
    rw [if_pos ⟨hle, hseos⟩]
    simp only [hd, ffDecodeNext, if_neg h1, if_neg h2, hloop]
    norm_num
    refine (seekToFrameInternal_zero_ff _ ?_ ?_).1
    · exact hload
    · exact hff
  · intro hloop
    simp only [ffUpdateLoop]
    rw [if_pos ⟨hle, hseos⟩]
    simp only [hd, ffDecodeNext, if_neg h1, if_neg h2, hloop]
    norm_num

/-- Auxiliary: running the FFmpeg update loop with exactly `k` frames left
before end-of-stream and at least `k + 1` frames due: all `k` remaining
frames are decoded, then the end-of-stream handling fires. -/
theorem ffUpdateLoop_eos (k : ℕ) :
    ∀ (fuel : ℕ) (s : VideoState) (dec : Bool) (d : FFDecoder),
      s.ffDecoder = some d → d.opened = true → d.eos = false →
      s.endOfStream = false → 0 < s.frameDuration → s.loaded = true →
      s.usingFFmpeg = true → k + 1 ≤ fuel → d.total = d.pos + k →
      ((k : ℚ) + 1) * s.frameDuration ≤ s.accumulatedTime →
      (s.loop = true → (ffUpdateLoop fuel s dec).1.currentFrame = 0 ∧
          (ffUpdateLoop fuel s dec).1.playing = true) ∧
      (s.loop = false → (ffUpdateLoop fuel s dec).1.playing = false ∧
          (ffUpdateLoop fuel s dec).1.currentFrame = s.currentFrame + k) := by
  induction k with
  | zero =>
    intro fuel s dec d hd hopen hdeos hseos hfd hload hff hfuel htot hlow
    obtain ⟨f, rfl⟩ : ∃ f, fuel = f + 1 := ⟨fuel - 1, by omega⟩
    have hle : s.frameDuration ≤ s.accumulatedTime := by nlinarith
    have hpos : d.total ≤ d.pos := by omega
    have h := ffUpdateLoop_eos_hit f s dec d hd hopen hdeos hseos hle hpos hload hff
    refine ⟨h.1, fun hloop => ⟨(h.2 hloop).1, ?_⟩⟩
    rw [(h.2 hloop).2]
    simp
  | succ k ih =>
    intro fuel s dec d hd hopen hdeos hseos hfd hload hff hfuel htot hlow
    obtain ⟨f, rfl⟩ : ∃ f, fuel = f + 1 := ⟨fuel - 1, by omega⟩
    have hk0 : (0 : ℚ) ≤ (k : ℚ) := Nat.cast_nonneg k
    have hle : s.frameDuration ≤ s.accumulatedTime := by
      push_cast at hlow
      nlinarith
    have hpos : d.pos < d.total := by omega
    have hstep := ffUpdateLoop_step f s dec d hd hopen hdeos hseos hle hpos
    have hres := ih f
      { s with
          accumulatedTime := s.accumulatedTime - s.frameDuration
          ffDecoder := some { d with pos := d.pos + 1 }
          currentFrame := s.currentFrame + 1
          currentTime :=
            if 0 < s.frameRate then ((s.currentFrame : ℚ) + 1) / s.frameRate
            else 0 }
      true { d with pos := d.pos + 1 }
      rfl hopen hdeos hseos hfd hload hff (by omega)
      (by show d.total = d.pos + 1 + k; omega)
      (by show ((k : ℚ) + 1) * s.frameDuration ≤
            s.accumulatedTime - s.frameDuration
          push_cast at hlow
          nlinarith)
    constructor
    · intro hloop
      have h := hres.1 hloop
      constructor
      · rw [hstep]
        exact h.1
      · rw [hstep]
        exact h.2
    · intro hloop
      have h := hres.2 hloop
      refine ⟨by rw [hstep]; exact h.1, ?_⟩
      have h2 : (ffUpdateLoop (f + 1) s dec).1.currentFrame =
          s.currentFrame + 1 + (k : ℤ) := by
        rw [hstep]
        exact h.2
      rw [h2]
      push_cast
      ring

/-- Auxiliary: the Media Foundation update loop exits when less than one
frame is due. -/
theorem mfUpdateLoop_stop (fuel : ℕ) (s : VideoState) (dec : Bool)
    (h : s.accumulatedTime < s.frameDuration) :
    mfUpdateLoop fuel s dec = (s, dec) := by
  cases fuel with
  | zero => rfl
  | succ f =>
    simp only [mfUpdateLoop]
    rw [if_neg]
    rintro ⟨h1, -⟩
    exact absurd h1 (not_le.mpr h)

/-- Auxiliary: one successful decode iteration of the Media Foundation
update loop. -/
theorem mfUpdateLoop_step (fuel : ℕ) (s : VideoState) (dec : Bool) (r : MFReader)
    (hr : s.reader = some r) (hseos : s.endOfStream = false)
    (hle : s.frameDuration ≤ s.accumulatedTime) (hpos : r.pos < r.total) :
    mfUpdateLoop (fuel + 1) s dec =
      mfUpdateLoop fuel
        { s with
            accumulatedTime := s.accumulatedTime - s.frameDuration
            currentTime := (r.pos : ℚ) * s.frameDuration
            currentFrame := ⌊((r.pos : ℚ) * s.frameDuration) * s.frameRate⌋
            reader := some { r with pos := r.pos + 1 } }
        true := by
  simp only [mfUpdateLoop]
  rw [if_pos ⟨hle, hseos⟩]
  simp only [mfDecodeNext, hr, if_pos hpos, hseos]
  norm_num

/-- Auxiliary: with `frameDuration * frameRate = 1`, the frame counter set
by an MF decode of sample `p` is exactly `p`. -/
theorem mf_frame_of_sample (s : VideoState) (p : ℕ)
    (hfr : s.frameDuration * s.frameRate = 1) :
    ⌊((p : ℚ) * s.frameDuration) * s.frameRate⌋ = (p : ℤ) := by
  rw [mul_assoc, hfr, mul_one, Int.floor_natCast]

/-- Auxiliary: draining `k` frames through the Media Foundation update loop
when the reader holds at least `k` samples and the accumulator due count is
exactly `k`. -/
theorem mfUpdateLoop_count (k : ℕ) :
    ∀ (fuel : ℕ) (s : VideoState) (dec : Bool) (r : MFReader),
      s.reader = some r → s.endOfStream = false → 0 < s.frameDuration →
      s.frameDuration * s.frameRate = 1 → k ≤ fuel → r.pos + k ≤ r.total →
      (k : ℚ) * s.frameDuration ≤ s.accumulatedTime →
      s.accumulatedTime - (k : ℚ) * s.frameDuration < s.frameDuration →
      (∃ r₁, (mfUpdateLoop fuel s dec).1.reader = some r₁ ∧
        r₁.pos = r.pos + k) ∧
      (mfUpdateLoop fuel s dec).1.accumulatedTime =
        s.accumulatedTime - (k : ℚ) * s.frameDuration ∧
      (mfUpdateLoop fuel s dec).1.currentFrame =
        (if k = 0 then s.currentFrame else (r.pos : ℤ) + k - 1) ∧
      (mfUpdateLoop fuel s dec).2 = (if k = 0 then dec else true) := by
  induction k with
  | zero =>
    intro fuel s dec r hr _ _ _ _ _ _ hhigh
    have hlt : s.accumulatedTime < s.frameDuration := by
      simpa using hhigh
    rw [mfUpdateLoop_stop fuel s dec hlt]
    simp [hr]
  | succ k ih =>
    intro fuel s dec r hr hseos hfd hfr hfuel htot hlow hhigh
    obtain ⟨f, rfl⟩ : ∃ f, fuel = f + 1 := ⟨fuel - 1, by omega⟩
    have hk0 : (0 : ℚ) ≤ (k : ℚ) := Nat.cast_nonneg k
    have hle : s.frameDuration ≤ s.accumulatedTime := by
      push_cast at hlow
      nlinarith
    have hpos : r.pos < r.total := by omega
    have hstep := mfUpdateLoop_step f s dec r hr hseos hle hpos
    have hres := ih f
      { s with
          accumulatedTime := s.accumulatedTime - s.frameDuration
          currentTime := (r.pos : ℚ) * s.frameDuration
          currentFrame := ⌊((r.pos : ℚ) * s.frameDuration) * s.frameRate⌋
          reader := some { r with pos := r.pos + 1 } }
      true { r with pos := r.pos + 1 }
      rfl hseos hfd hfr (by omega)
      (by show r.pos + 1 + k ≤ r.total; omega)
      (by show (k : ℚ) * s.frameDuration ≤ s.accumulatedTime - s.frameDuration
          push_cast at hlow
          nlinarith)
      (by show s.accumulatedTime - s.frameDuration - (k : ℚ) * s.frameDuration <
            s.frameDuration
          push_cast at hhigh
          nlinarith)
    obtain ⟨⟨r₁, hr₁, hp₁⟩, hacc, hcf, hflag⟩ := hres
    have hp2 : r₁.pos = r.pos + 1 + k := hp₁
    have hacc2 : (mfUpdateLoop (f + 1) s dec).1.accumulatedTime =
        s.accumulatedTime - s.frameDuration - (k : ℚ) * s.frameDuration := by
      rw [hstep]
      exact hacc
    have hcf2 : (mfUpdateLoop (f + 1) s dec).1.currentFrame =
        (if k = 0 then ⌊((r.pos : ℚ) * s.frameDuration) * s.frameRate⌋
         else ((r.pos + 1 : ℕ) : ℤ) + k - 1) := by
      rw [hstep]
      exact hcf
    have hflag2 : (mfUpdateLoop (f + 1) s dec).2 = (if k = 0 then true else true) := by
      rw [hstep]
      exact hflag
    refine ⟨⟨r₁, by rw [hstep]; exact hr₁, by omega⟩, ?_, ?_, ?_⟩
    · rw [hacc2]
      push_cast
      ring
    · rw [hcf2]
      rcases Nat.eq_zero_or_pos k with hk | hk
      · subst hk
        rw [if_pos rfl, if_neg (by omega), mf_frame_of_sample s r.pos hfr]
        push_cast
        ring
      · rw [if_neg (by omega), if_neg (by omega)]
        push_cast
        ring
    · rw [hflag2]
      simp

/-- Auxiliary: seeking to frame 0 on the Media Foundation backend puts the
frame counter at 0 and does not touch the playing flag. -/
theorem seekToFrameInternal_zero_mf (t : VideoState) (r : MFReader)
    (hload : t.loaded = true) (hmf : t.usingFFmpeg = false)
    (hr : t.reader = some r) :
    (seekToFrameInternal t 0).currentFrame = 0 ∧
    (seekToFrameInternal t 0).playing = t.playing := by
  have hf : max (0 : ℤ) (min 0 (if 0 < t.totalFrames then t.totalFrames - 1 else 0)) = 0 :=
    max_eq_left (min_le_left _ _)
  by_cases h0 : 0 < r.total <;>
    simp [seekToFrameInternal, mfDecodeNext, hload, hmf, hr, hf, h0]

/-- Auxiliary: the iteration of the Media Foundation update loop that hits
end-of-stream seeks back to frame 0 and keeps playing (loop mode) or stops
holding the current frame counter, and breaks out of the loop. -/
theorem mfUpdateLoop_eos_hit (fuel : ℕ) (s : VideoState) (dec : Bool) (r : MFReader)
    (hr : s.reader = some r) (hseos : s.endOfStream = false)
    (hle : s.frameDuration ≤ s.accumulatedTime) (hpos : r.total ≤ r.pos)
    (hload : s.loaded = true) (hmf : s.usingFFmpeg = false) :
    (s.loop = true → (mfUpdateLoop (fuel + 1) s dec).1.currentFrame = 0 ∧
        (mfUpdateLoop (fuel + 1) s dec).1.playing = true) ∧
    (s.loop = false → (mfUpdateLoop (fuel + 1) s dec).1.playing = false ∧
        (mfUpdateLoop (fuel + 1) s dec).1.currentFrame = s.currentFrame) := by
  have h2 : ¬r.pos < r.total := not_lt.mpr hpos
  constructor
  · intro hloop
    simp only [mfUpdateLoop]
    rw [if_pos ⟨hle, hseos⟩]
    simp only [mfDecodeNext, hr, if_neg h2, hloop]
    norm_num
    refine (seekToFrameInternal_zero_mf _ r ?_ ?_ ?_).1
    · exact hload
    · exact hmf
    · rfl
  · intro hloop
    simp only [mfUpdateLoop]
    rw [if_pos ⟨hle, hseos⟩]
    simp only [mfDecodeNext, hr, if_neg h2, hloop]
    norm_num

/-- Auxiliary: running the Media Foundation update loop with exactly `k`
samples left before end-of-stream and at least `k + 1` frames due: all `k`
remaining samples are decoded, then the end-of-stream handling fires. -/
theorem mfUpdateLoop_eos (k : ℕ) :
    ∀ (fuel : ℕ) (s : VideoState) (dec : Bool) (r : MFReader),
      s.reader = some r → s.endOfStream = false → 0 < s.frameDuration →
      s.frameDuration * s.frameRate = 1 → s.loaded = true →
      s.usingFFmpeg = false → k + 1 ≤ fuel → r.total = r.pos + k →
      ((k : ℚ) + 1) * s.frameDuration ≤ s.accumulatedTime →
      (s.loop = true → (mfUpdateLoop fuel s dec).1.currentFrame = 0 ∧
          (mfUpdateLoop fuel s dec).1.playing = true) ∧
      (s.loop = false → (mfUpdateLoop fuel s dec).1.playing = false ∧
          (mfUpdateLoop fuel s dec).1.currentFrame =
            (if k = 0 then s.currentFrame else (r.pos : ℤ) + k - 1)) := by
  induction k with
  | zero =>
    intro fuel s dec r hr hseos hfd hfr hload hmf hfuel htot hlow
    obtain ⟨f, rfl⟩ : ∃ f, fuel = f + 1 := ⟨fuel - 1, by omega⟩
    have hle : s.frameDuration ≤ s.accumulatedTime := by nlinarith
    have hpos : r.total ≤ r.pos := by omega
    have h := mfUpdateLoop_eos_hit f s dec r hr hseos hle hpos hload hmf
    exact ⟨h.1, fun hloop => ⟨(h.2 hloop).1, by rw [(h.2 hloop).2]; simp⟩⟩
  | succ k ih =>
    intro fuel s dec r hr hseos hfd hfr hload hmf hfuel htot hlow
    obtain ⟨f, rfl⟩ : ∃ f, fuel = f + 1 := ⟨fuel - 1, by omega⟩
    have hk0 : (0 : ℚ) ≤ (k : ℚ) := Nat.cast_nonneg k
    have hle : s.frameDuration ≤ s.accumulatedTime := by
      push_cast at hlow
      nlinarith
    have hpos : r.pos < r.total := by omega
    have hstep := mfUpdateLoop_step f s dec r hr hseos hle hpos
    have hres := ih f
      { s with
          accumulatedTime := s.accumulatedTime - s.frameDuration
          currentTime := (r.pos : ℚ) * s.frameDuration
          currentFrame := ⌊((r.pos : ℚ) * s.frameDuration) * s.frameRate⌋
          reader := some { r with pos := r.pos + 1 } }
      true { r with pos := r.pos + 1 }
      rfl hseos hfd hfr hload hmf (by omega)
      (by show r.total = r.pos + 1 + k; omega)
      (by show ((k : ℚ) + 1) * s.frameDuration ≤
            s.accumulatedTime - s.frameDuration
          push_cast at hlow
          nlinarith)
    constructor
    · intro hloop
      have h := hres.1 hloop
      exact ⟨by rw [hstep]; exact h.1, by rw [hstep]; exact h.2⟩
    · intro hloop
      have h := hres.2 hloop
      refine ⟨by rw [hstep]; exact h.1, ?_⟩
      have h2 : (mfUpdateLoop (f + 1) s dec).1.currentFrame =
          (if k = 0 then ⌊((r.pos : ℚ) * s.frameDuration) * s.frameRate⌋
           else ((r.pos + 1 : ℕ) : ℤ) + k - 1) := by
        rw [hstep]
        exact h.2
      rw [h2, if_neg (Nat.succ_ne_zero k)]
      rcases Nat.eq_zero_or_pos k with hk | hk
      · subst hk
        rw [if_pos rfl, mf_frame_of_sample s r.pos hfr]
        push_cast
        ring
      · rw [if_neg (by omega : ¬k = 0)]
        push_cast
        ring

/-- Auxiliary: `UpdateFrame` on a loaded, playing FFmpeg-backed video with
at least one frame due runs the FFmpeg decode loop on the accumulated
clock. -/
theorem updateFrame_run_ff (s : VideoState) (elapsed : ℚ) (d : FFDecoder)
    (hload : s.loaded = true) (hplay : s.playing = true)
    (hff : s.usingFFmpeg = true) (hd : s.ffDecoder = some d)
    (hge : s.frameDuration ≤ s.accumulatedTime + elapsed) :
    updateFrame s elapsed =
      ffUpdateLoop (⌊(s.accumulatedTime + elapsed) / s.frameDuration⌋.toNat + 1)
        { s with accumulatedTime := s.accumulatedTime + elapsed } false := by
  simp only [updateFrame, hload, hplay, hff, hd]
  rw [if_neg (by simp), if_neg (not_lt.mpr hge), if_pos (by simp)]

/-- Auxiliary: `UpdateFrame` on a loaded, playing MF-backed video with at
least one frame due runs the MF decode loop on the accumulated clock. -/
theorem updateFrame_run_mf (s : VideoState) (elapsed : ℚ)
    (hload : s.loaded = true) (hplay : s.playing = true)
    (hmf : s.usingFFmpeg = false)
    (hge : s.frameDuration ≤ s.accumulatedTime + elapsed) :
    updateFrame s elapsed =
      mfUpdateLoop (⌊(s.accumulatedTime + elapsed) / s.frameDuration⌋.toNat + 1)
        { s with accumulatedTime := s.accumulatedTime + elapsed } false := by
  simp only [updateFrame, hload, hplay, hmf]
  rw [if_neg (by simp), if_neg (not_lt.mpr hge), if_neg (by simp)]

/-- C1: a single `UpdateFrame` call on a loaded, playing, 25 fps video with
an empty accumulator and 0.12 s of measured elapsed time adds the elapsed
time to the clock and then, draining it one `frameDuration = 1/25` at a
time, decodes exactly 3 frames (0.12 / 0.04) on whichever backend is
active, leaving the accumulator empty. -/
theorem updateFrame_decodes_three (s : VideoState) (elapsed : ℚ)
    (hload : s.loaded = true) (hplay : s.playing = true)
    (hseos : s.endOfStream = false) (hrate : s.frameRate = 25)
    (hdur : s.frameDuration = 1 / 25) (hacc : s.accumulatedTime = 0)
    (helapsed : elapsed = 12 / 100) :
    (∀ d, s.usingFFmpeg = true → s.ffDecoder = some d → d.opened = true →
      d.eos = false → d.pos + 3 ≤ d.total →
      (updateFrame s elapsed).1.currentFrame = s.currentFrame + 3 ∧
      (updateFrame s elapsed).1.accumulatedTime = 0 ∧
      (∃ d₁, (updateFrame s elapsed).1.ffDecoder = some d₁ ∧
        d₁.pos = d.pos + 3) ∧
      (updateFrame s elapsed).2 = true) ∧
    (∀ r, s.usingFFmpeg = false → s.reader = some r → r.pos + 3 ≤ r.total →
      (∃ r₁, (updateFrame s elapsed).1.reader = some r₁ ∧
        r₁.pos = r.pos + 3) ∧
      (updateFrame s elapsed).1.accumulatedTime = 0 ∧
      (updateFrame s elapsed).2 = true) := by
  have hge : s.frameDuration ≤ s.accumulatedTime + elapsed := by
    rw [hdur, hacc, helapsed]
    norm_num
  have hfuel : (⌊(s.accumulatedTime + elapsed) / s.frameDuration⌋.toNat + 1) = 4 := by
    rw [hdur, hacc, helapsed]
    norm_num
    rfl
  have hfd : (0 : ℚ) < s.frameDuration := by
    rw [hdur]
    norm_num
  have hlow : (3 : ℚ) * s.frameDuration ≤ s.accumulatedTime + elapsed := by
    rw [hdur, hacc, helapsed]
    norm_num
  have hhigh : s.accumulatedTime + elapsed - (3 : ℚ) * s.frameDuration <
      s.frameDuration := by
    rw [hdur, hacc, helapsed]
    norm_num
  constructor
  · intro d hff hd hopen hdeos htot
    rw [updateFrame_run_ff s elapsed d hload hplay hff hd hge, hfuel]
    have h := ffUpdateLoop_count 3 4
      { s with accumulatedTime := s.accumulatedTime + elapsed } false d
      hd hopen hdeos hseos hfd (by omega) htot
      (by push_cast; exact hlow) (by push_cast; exact hhigh)
    obtain ⟨hcf, haccr, hdec, hflag⟩ := h
    refine ⟨hcf, ?_, hdec, by rw [hflag]; simp⟩
    have haccr2 : (ffUpdateLoop 4
        { s with accumulatedTime := s.accumulatedTime + elapsed }
        false).1.accumulatedTime =
        s.accumulatedTime + elapsed - (3 : ℚ) * s.frameDuration := by
      push_cast at haccr
      exact haccr
    rw [haccr2, hdur, hacc, helapsed]
    norm_num
  · intro r hmf hr htot
    have hfr : s.frameDuration * s.frameRate = 1 := by
      rw [hdur, hrate]
      norm_num
    rw [updateFrame_run_mf s elapsed hload hplay hmf hge, hfuel]
    have h := mfUpdateLoop_count 3 4
      { s with accumulatedTime := s.accumulatedTime + elapsed } false r
      hr hseos hfd hfr (by omega) htot
      (by push_cast; exact hlow) (by push_cast; exact hhigh)
    obtain ⟨hrd, haccr, hcf, hflag⟩ := h
    refine ⟨hrd, ?_, by rw [hflag]; simp⟩
    have haccr2 : (mfUpdateLoop 4
        { s with accumulatedTime := s.accumulatedTime + elapsed }
        false).1.accumulatedTime =
        s.accumulatedTime + elapsed - (3 : ℚ) * s.frameDuration := by
      push_cast at haccr
      exact haccr
    rw [haccr2, hdur, hacc, helapsed]
    norm_num

/-- Witness for C1: a concrete FFmpeg-backed 25 fps video with 10 frames
left, elapsed 0.12 s — exactly 3 frames decoded in one call. -/
theorem updateFrame_decodes_three_witness :
    (updateFrame
      { initialVideoState with
          loaded := true, playing := true, usingFFmpeg := true,
          frameRate := 25, frameDuration := 1 / 25,
          ffDecoder := some
            { opened := true, width := 64, height := 64, duration := 10,
              frameRate := 25, totalFrames := 250, hasAlpha := false,
              pos := 0, total := 10, eos := false } }
      (12 / 100)).1.currentFrame = 0 + 3 :=
  ((updateFrame_decodes_three _ (12 / 100) rfl rfl rfl rfl rfl rfl rfl).1
    { opened := true, width := 64, height := 64, duration := 10,
      frameRate := 25, totalFrames := 250, hasAlpha := false,
      pos := 0, total := 10, eos := false }
    rfl rfl rfl rfl (by norm_num)).1

/-- C3: when the decoder reaches end-of-stream during an `UpdateFrame` call
(`k` frames were left and at least `k + 1` were due), a looping video seeks
back to frame 0 and keeps playing — afterwards `currentFrame = 0` and
`playing = true` — while a non-looping video stops with `playing = false`
and `currentFrame` holding the last decoded value, on whichever backend is
active. -/
theorem updateFrame_end_of_stream (s : VideoState) (elapsed : ℚ) (k : ℕ)
    (hload : s.loaded = true) (hplay : s.playing = true)
    (hseos : s.endOfStream = false) (hfd : 0 < s.frameDuration)
    (hacc : ((k : ℚ) + 1) * s.frameDuration ≤ s.accumulatedTime + elapsed) :
    (∀ d, s.usingFFmpeg = true → s.ffDecoder = some d → d.opened = true →
      d.eos = false → d.total = d.pos + k →
      (s.loop = true → (updateFrame s elapsed).1.currentFrame = 0 ∧
          (updateFrame s elapsed).1.playing = true) ∧
      (s.loop = false → (updateFrame s elapsed).1.playing = false ∧
          (updateFrame s elapsed).1.currentFrame = s.currentFrame + k)) ∧
    (∀ r, s.usingFFmpeg = false → s.reader = some r →
      s.frameDuration * s.frameRate = 1 → r.total = r.pos + k →
      (s.loop = true → (updateFrame s elapsed).1.currentFrame = 0 ∧
          (updateFrame s elapsed).1.playing = true) ∧
      (s.loop = false → (updateFrame s elapsed).1.playing = false ∧
          (updateFrame s elapsed).1.currentFrame =
            (if k = 0 then s.currentFrame else (r.pos : ℤ) + k - 1))) := by
  have hk0 : (0 : ℚ) ≤ (k : ℚ) := Nat.cast_nonneg k
  have hge : s.frameDuration ≤ s.accumulatedTime + elapsed := by nlinarith
  have hk1 : (k : ℤ) + 1 ≤ ⌊(s.accumulatedTime + elapsed) / s.frameDuration⌋ := by
    rw [Int.le_floor, le_div_iff hfd]
    push_cast
    linarith
  have hfuel : k + 1 ≤ ⌊(s.accumulatedTime + elapsed) / s.frameDuration⌋.toNat + 1 := by
    omega
  constructor
  · intro d hff hd hopen hdeos htot
    rw [updateFrame_run_ff s elapsed d hload hplay hff hd hge]
    exact ffUpdateLoop_eos k _
      { s with accumulatedTime := s.accumulatedTime + elapsed } false d
      hd hopen hdeos hseos hfd hload hff hfuel htot hacc
  · intro r hmf hr hfr htot
    rw [updateFrame_run_mf s elapsed hload hplay hmf hge]
    exact mfUpdateLoop_eos k _
      { s with accumulatedTime := s.accumulatedTime + elapsed } false r
      hr hseos hfd hfr hload hmf hfuel htot hacc

/-- Witness for C3: a looping FFmpeg-backed video exactly at end-of-stream
comes back playing at frame 0 after one update. -/
theorem updateFrame_end_of_stream_witness :
    (updateFrame
      { initialVideoState with
          loaded := true, playing := true, loop := true, usingFFmpeg := true,
          frameRate := 25, frameDuration := 1 / 25, totalFrames := 10,
          currentFrame := 9,
          ffDecoder := some
            { opened := true, width := 64, height := 64, duration := 2 / 5,
              frameRate := 25, totalFrames := 10, hasAlpha := false,
              pos := 10, total := 10, eos := false } }
      (1 / 25)).1.currentFrame = 0 ∧
    (updateFrame
      { initialVideoState with
          loaded := true, playing := true, loop := true, usingFFmpeg := true,
          frameRate := 25, frameDuration := 1 / 25, totalFrames := 10,
          currentFrame := 9,
          ffDecoder := some
            { opened := true, width := 64, height := 64, duration := 2 / 5,
              frameRate := 25, totalFrames := 10, hasAlpha := false,
              pos := 10, total := 10, eos := false } }
      (1 / 25)).1.playing = true :=
  ((updateFrame_end_of_stream _ (1 / 25) 0 rfl rfl rfl (by norm_num)
      (by norm_num [initialVideoState])).1
    { opened := true, width := 64, height := 64, duration := 2 / 5,
      frameRate := 25, totalFrames := 10, hasAlpha := false,
      pos := 10, total := 10, eos := false }
    rfl rfl rfl rfl rfl).1 rfl

/-- Auxiliary: an MF decode step never touches the probe-derived metadata,
the backend selection or the FFmpeg decoder object. -/
theorem mfDecodeNext_preserves (s : VideoState) :
    (mfDecodeNext s).1.width = s.width ∧ (mfDecodeNext s).1.height = s.height ∧
    (mfDecodeNext s).1.frameRate = s.frameRate ∧
    (mfDecodeNext s).1.usingFFmpeg = s.usingFFmpeg ∧
    (mfDecodeNext s).1.loaded = s.loaded ∧
    (mfDecodeNext s).1.ffDecoder = s.ffDecoder := by
  rcases h : s.reader with _ | r
  · simp [mfDecodeNext, h]
  · by_cases hp : r.pos < r.total <;> simp [mfDecodeNext, h, hp]

/-- Auxiliary: a Media Foundation load with a valid probe succeeds and
records the probe's geometry and frame rate with the MF backend active. -/
theorem loadVideoMF_valid (t : VideoState) (p : MFProbe)
    (hval : ¬(8192 < p.width ∨ 8192 < p.height ∨ p.width = 0 ∨ p.height = 0)) :
    (loadVideoMF t (some p)).2 = true ∧
    (loadVideoMF t (some p)).1.loaded = true ∧
    (loadVideoMF t (some p)).1.usingFFmpeg = false ∧
    (loadVideoMF t (some p)).1.width = (p.width : ℤ) ∧
    (loadVideoMF t (some p)).1.height = (p.height : ℤ) ∧
    (loadVideoMF t (some p)).1.frameRate = mfProbeRate p := by
  simp only [loadVideoMF, if_neg hval]
  refine ⟨trivial, ?_, ?_, ?_, ?_, ?_⟩
  · rw [show ∀ u : VideoState × Bool, ({ u.1 with playing := true, loop := true} : VideoState).loaded = u.1.loaded from fun u => rfl]
    rw [(mfDecodeNext_preserves _).2.2.2.2.1]
  · rw [show ∀ u : VideoState × Bool, ({ u.1 with playing := true, loop := true} : VideoState).usingFFmpeg = u.1.usingFFmpeg from fun u => rfl]
    rw [(mfDecodeNext_preserves _).2.2.2.1]
  · rw [show ∀ u : VideoState × Bool, ({ u.1 with playing := true, loop := true} : VideoState).width = u.1.width from fun u => rfl]
    rw [(mfDecodeNext_preserves _).1]
  · rw [show ∀ u : VideoState × Bool, ({ u.1 with playing := true, loop := true} : VideoState).height = u.1.height from fun u => rfl]
    rw [(mfDecodeNext_preserves _).2.1]
  · rw [show ∀ u : VideoState × Bool, ({ u.1 with playing := true, loop := true} : VideoState).frameRate = u.1.frameRate from fun u => rfl]
    rw [(mfDecodeNext_preserves _).2.2.1]

/-- C8: every load attempts the Media Foundation backend first and only on
its failure the FFmpeg fallback (a successful MF open makes the result
independent of the fallback entirely); whichever backend succeeds is
recorded on the state (`usingFFmpeg`) and supplies width/height/frameRate
from its probe; later seeks route through the recorded backend only (the
other backend's object is untouched); when both backends fail the load
fails without loading anything and `VideoManager::LoadVideo` returns the
sentinel id 0. -/
theorem backend_selection_fallback :
    (∀ (s : VideoState) (p : MFProbe) (fa₁ fa₂ : Bool)
        (ff₁ ff₂ : Option FFProbe),
      ¬(8192 < p.width ∨ 8192 < p.height ∨ p.width = 0 ∨ p.height = 0) →
      playerLoadVideo s true true (some p) fa₁ ff₁ =
        playerLoadVideo s true true (some p) fa₂ ff₂ ∧
      (playerLoadVideo s true true (some p) fa₁ ff₁).2 = true ∧
      (playerLoadVideo s true true (some p) fa₁ ff₁).1.loaded = true ∧
      (playerLoadVideo s true true (some p) fa₁ ff₁).1.usingFFmpeg = false ∧
      (playerLoadVideo s true true (some p) fa₁ ff₁).1.width = (p.width : ℤ) ∧
      (playerLoadVideo s true true (some p) fa₁ ff₁).1.height = (p.height : ℤ) ∧
      (playerLoadVideo s true true (some p) fa₁ ff₁).1.frameRate = mfProbeRate p) ∧
    (∀ (s : VideoState) (q : FFProbe),
      ¬(q.width ≤ 0 ∨ q.height ≤ 0 ∨ 8192 < q.width ∨ 8192 < q.height) →
      (playerLoadVideo s true true none true (some q)).2 = true ∧
      (playerLoadVideo s true true none true (some q)).1.loaded = true ∧
      (playerLoadVideo s true true none true (some q)).1.usingFFmpeg = true ∧
      (playerLoadVideo s true true none true (some q)).1.width = q.width ∧
      (playerLoadVideo s true true none true (some q)).1.height = q.height ∧
      (playerLoadVideo s true true none true (some q)).1.frameRate =
        ffRate q.rFrameRate q.avgFrameRate) ∧
    (∀ (s : VideoState) (f : ℤ),
      (s.usingFFmpeg = true → (seekToFrameInternal s f).reader = s.reader) ∧
      (s.usingFFmpeg = false →
        (seekToFrameInternal s f).ffDecoder = s.ffDecoder)) ∧
    (∀ (s : VideoState) (fa : Bool),
      (playerLoadVideo s true true none fa none).2 = false ∧
      (playerLoadVideo s true true none fa none).1.loaded = false) ∧
    (∀ (m : VideoManagerState) (pg : Bool), (managerLoadVideo m pg none).1 = 0) := by
  refine ⟨?_, ?_, ?_, ?_, ?_⟩
  · intro s p fa₁ fa₂ ff₁ ff₂ hval
    have hmf := loadVideoMF_valid (unloadVideoInternal s) p hval
    have hbranch : ∀ (fa : Bool) (ff : Option FFProbe),
        playerLoadVideo s true true (some p) fa ff =
          loadVideoMF (unloadVideoInternal s) (some p) := by
      intro fa ff
      simp only [playerLoadVideo]
      rw [if_neg (by simp), if_neg (by simp), if_pos hmf.1]
    rw [hbranch fa₁ ff₁, hbranch fa₂ ff₂]
    exact ⟨rfl, hmf.1, hmf.2.1, hmf.2.2.1, hmf.2.2.2.1, hmf.2.2.2.2.1,
      hmf.2.2.2.2.2⟩
  · intro s q hval
    simp only [playerLoadVideo, loadVideoMF, loadVideoFFmpeg, ffOpen,
      if_neg hval]
    norm_num
  · intro s f
    constructor
    · intro hff
      by_cases hload : s.loaded = false
      · simp [seekToFrameInternal, hload]
      · rcases hd : s.ffDecoder with _ | d <;>
          simp [seekToFrameInternal, hload, hff, hd]
    · intro hmf
      by_cases hload : s.loaded = false
      · simp [seekToFrameInternal, hload]
      · rcases hr : s.reader with _ | r
        · simp [seekToFrameInternal, hload, hmf, hr]
        · simp only [seekToFrameInternal, hload, hmf, hr]
          rw [if_neg (by simp), if_neg (by simp)]
          rw [(mfDecodeNext_preserves _).2.2.2.2.2]
  · intro s fa
    cases fa <;>
      simp [playerLoadVideo, loadVideoMF, loadVideoFFmpeg, ffOpen,
        unloadVideoInternal]
  · intro m pg
    simp only [managerLoadVideo]
    split_ifs <;> rfl

/-- Witness for C8: a file the primary backend cannot open but the FFmpeg
fallback probes as 1920x1080 yields a loaded video on the FFmpeg backend
with the fallback's probed geometry. -/
theorem backend_selection_fallback_witness :
    (playerLoadVideo initialVideoState true true none true
        (some ffProbeExample)).1.usingFFmpeg = true ∧
    (playerLoadVideo initialVideoState true true none true
        (some ffProbeExample)).1.width = 1920 := by
  have h := backend_selection_fallback.2.1 initialVideoState ffProbeExample
    (by norm_num [ffProbeExample])
  exact ⟨h.2.2.1, by rw [h.2.2.2.1]; norm_num [ffProbeExample]⟩

/-- Auxiliary: finding an id after a map-style insert means it is the
inserted id or it was present already. -/
theorem lookupPlayer_insert (ps : List (ℤ × VideoState)) (id : ℤ)
    (p : VideoState) (k : ℤ)
    (h : lookupPlayer (insertPlayer ps id p) k ≠ none) :
    k = id ∨ lookupPlayer ps k ≠ none := by
  simp only [insertPlayer, lookupPlayer] at h
  by_cases hk : id = k
  · exact Or.inl hk.symm
  · rw [if_neg hk] at h
    right
    intro hcon
    apply h
    clear h hk
    induction ps with
    | nil => rfl
    | cons q qs ih =>
      simp only [lookupPlayer] at hcon
      by_cases hq : q.1 = k
      · rw [if_pos hq] at hcon
        exact absurd hcon (by simp)
      · rw [if_neg hq] at hcon
        by_cases hfil : q.1 != id
        · rw [List.filter_cons, if_pos hfil]
          simp only [lookupPlayer]
          rw [if_neg hq]
          exact ih hcon
        · rw [List.filter_cons, if_neg hfil]
          exact ih hcon

/-- Auxiliary: finding an id after a map-style erase means it was present
already. -/
theorem lookupPlayer_filter (ps : List (ℤ × VideoState)) (id : ℤ) (k : ℤ)
    (h : lookupPlayer (ps.filter (fun q => q.1 != id)) k ≠ none) :
    lookupPlayer ps k ≠ none := by
  intro hcon
  apply h
  clear h
  induction ps with
  | nil => rfl
  | cons q qs ih =>
    simp only [lookupPlayer] at hcon
    by_cases hq : q.1 = k
    · rw [if_pos hq] at hcon
      exact absurd hcon (by simp)
    · rw [if_neg hq] at hcon
      by_cases hfil : q.1 != id
      · rw [List.filter_cons, if_pos hfil]
        simp only [lookupPlayer]
        rw [if_neg hq]
        exact ih hcon
      · rw [List.filter_cons, if_neg hfil]
        exact ih hcon

/-- Auxiliary: every `managerLoadVideo` call either fails with the
sentinel 0 and an unchanged manager, or succeeds with a positive id
inserted into the table. -/
theorem managerLoadVideo_spec (m : VideoManagerState) (pg : Bool)
    (res : Option VideoState) :
    ((managerLoadVideo m pg res).1 = 0 ∧ (managerLoadVideo m pg res).2 = m) ∨
    (0 < (managerLoadVideo m pg res).1 ∧ ∃ p,
      (managerLoadVideo m pg res).2.players =
        insertPlayer m.players (managerLoadVideo m pg res).1 p) := by
  by_cases h1 : m.initialized = false ∨ pg = false
  · exact Or.inl (by simp only [managerLoadVideo, if_pos h1]; exact ⟨trivial, trivial⟩)
  by_cases h2 : 32 ≤ m.players.length
  · exact Or.inl
      (by simp only [managerLoadVideo, if_neg h1, if_pos h2]; exact ⟨trivial, trivial⟩)
  rcases res with _ | p
  · exact Or.inl
      (by simp only [managerLoadVideo, if_neg h1, if_neg h2]; exact ⟨trivial, trivial⟩)
  · right
    have hred : managerLoadVideo m pg (some p) =
        (if m.nextVideoId ≤ 0 then 1 else m.nextVideoId,
         { m with
             players := insertPlayer m.players
               (if m.nextVideoId ≤ 0 then 1 else m.nextVideoId) p
             nextVideoId := if m.nextVideoId ≤ 0 then 1 else m.nextVideoId + 1 }) := by
      simp only [managerLoadVideo, if_neg h1, if_neg h2]
    rw [hred]
    refine ⟨?_, p, rfl⟩
    by_cases hn : m.nextVideoId ≤ 0
    · simp [hn]
    · simp only [if_neg hn]
      omega

/-- Auxiliary: along any run, every player in the table is registered
under an id handed out by some successful load, and all issued ids are
positive. -/
theorem managerRunAux_invariant (ops : List ManagerOp) :
    ∀ (m : VideoManagerState) (ids : List ℤ),
      (∀ k, lookupPlayer m.players k ≠ none → k ∈ ids) →
      (∀ j ∈ ids, 0 < j) →
      (∀ k, lookupPlayer (managerRunAux (m, ids) ops).1.players k ≠ none →
        k ∈ (managerRunAux (m, ids) ops).2) ∧
      (∀ j ∈ (managerRunAux (m, ids) ops).2, 0 < j) := by
  induction ops with
  | nil =>
    intro m ids h1 h2
    exact ⟨h1, h2⟩
  | cons op ops ih =>
    intro m ids h1 h2
    have hstep : managerRunAux (m, ids) (op :: ops) =
        managerRunAux ((managerStep m op).1, ids ++ (managerStep m op).2) ops := rfl
    rw [hstep]
    cases op with
    | load pg res =>
      rcases managerLoadVideo_spec m pg res with ⟨hid0, hm⟩ | ⟨hpos, p, hins⟩
      · have hsv : managerStep m (.load pg res) = (m, []) := by
          simp only [managerStep]
          rw [hid0, if_pos rfl, hm]
        rw [hsv, List.append_nil]
        exact ih m ids h1 h2
      · have hne : (managerLoadVideo m pg res).1 ≠ 0 := by omega
        have hsv : managerStep m (.load pg res) =
            ((managerLoadVideo m pg res).2, [(managerLoadVideo m pg res).1]) := by
          simp only [managerStep]
          rw [if_neg hne]
        rw [hsv]
        refine ih _ _ ?_ ?_
        · intro k hk
          rw [hins] at hk
          rcases lookupPlayer_insert _ _ _ _ hk with hk | hk
          · exact List.mem_append_right _ (by simp [hk])
          · exact List.mem_append_left _ (h1 k hk)
        · intro j hj
          rcases List.mem_append.mp hj with hj | hj
          · exact h2 j hj
          · simp only [List.mem_singleton] at hj
            omega
    | unload id =>
      have hsv : managerStep m (.unload id) =
          (managerUnloadVideo m id, []) := rfl
      rw [hsv, List.append_nil]
      refine ih _ _ ?_ h2
      intro k hk
      simp only [managerUnloadVideo] at hk
      exact h1 k (lookupPlayer_filter _ _ _ hk)

/-- C10: after any sequence of manager operations from the freshly
initialized manager, every id issued by a successful `LoadVideo` is
strictly positive; `GetPlayer` on any id never issued yields null, so a
per-video control call with such an id is a no-op; and `LoadVideo` returns
the sentinel 0 exactly on its failure branches (uninitialized manager,
null path, 32-player cap, or the per-player load — both decode backends —
failing). -/
theorem manager_ids_positive_unknown_noop (ops : List ManagerOp) (id : ℤ)
    (hid : id ∉ (managerRun ops).2) :
    (∀ j ∈ (managerRun ops).2, 0 < j) ∧
    managerGetPlayer (managerRun ops).1 id = none ∧
    managerPlayVideo (managerRun ops).1 id = (managerRun ops).1 ∧
    (∀ (m : VideoManagerState) (pg : Bool) (res : Option VideoState),
      ((managerLoadVideo m pg res).1 = 0 ↔
        (m.initialized = false ∨ pg = false ∨ 32 ≤ m.players.length ∨
          res = none))) := by
  have hinv := managerRunAux_invariant ops initialManager []
    (fun k hk => absurd rfl hk) (fun j hj => absurd hj (List.not_mem_nil j))
  have hnone : managerGetPlayer (managerRun ops).1 id = none := by
    by_cases h : lookupPlayer (managerRun ops).1.players id = none
    · exact h
    · exact absurd (hinv.1 id h) hid
  refine ⟨hinv.2, hnone, ?_, ?_⟩
  · simp [managerPlayVideo, hnone]
  · intro m pg res
    constructor
    · intro h0
      by_contra hcon
      push_neg at hcon
      obtain ⟨hi, hp, hcap, hres⟩ := hcon
      rcases res with _ | p
      · exact hres rfl
      · have hlt : 0 < (managerLoadVideo m pg (some p)).1 := by
          simp only [managerLoadVideo, hi, hp]
          rw [if_neg (by simp), if_neg (not_le.mpr (by omega))]
          by_cases hn : m.nextVideoId ≤ 0
          · simp [hn]
          · simp only [hn, ite_false]
            omega
        omega
    · intro h
      rcases h with h | h | h | h
      · simp [managerLoadVideo, h]
      · simp [managerLoadVideo, h]
      · by_cases h1 : m.initialized = false ∨ pg = false
        · simp [managerLoadVideo, if_pos h1]
        · simp [managerLoadVideo, if_neg h1, if_pos h]
      · subst h
        by_cases h1 : m.initialized = false ∨ pg = false
        · simp [managerLoadVideo, if_pos h1]
        · by_cases h2 : 32 ≤ m.players.length
          · simp [managerLoadVideo, if_neg h1, if_pos h2]
          · simp [managerLoadVideo, if_neg h1, if_neg h2]

/-- Witness for C10: from a fresh manager with no operations, id 7 was
never issued — `GetPlayer` yields null and `PlayVideo` is a no-op. -/
theorem manager_ids_positive_unknown_noop_witness :
    managerGetPlayer (managerRun []).1 7 = none ∧
    managerPlayVideo (managerRun []).1 7 = (managerRun []).1 := by
  have h := manager_ids_positive_unknown_noop [] 7 (by simp [managerRun, managerRunAux])
  exact ⟨h.2.1, h.2.2.1⟩

end Daro
